import Mathlib

/-!
Verification of the ImSalione portfolio's event-driven rendering and
synchronization pipeline, as a shallow embedding of the JavaScript sources:

* `js/sections/section-timeline.js` — the slot-machine timeline widget
  (display index state machine, index-mapping contract, emitted payload);
* `js/sections/section-skills.js` — the skills widget (skill-level
  computation, tier badges, the animation queue and its cancellation);
* `js/core/router.js` — the partial loader (idempotence, error handling,
  in-flight guard);
* `js/main.js` — the rendering orchestrator (readiness join, duplicate
  render guard).

JavaScript numbers are modelled as `Int`/`Nat`/`ℚ` (every computation in
these files stays well inside the exactly-representable range of IEEE
doubles); `undefined`/`null` results become `Option`; the browser's timer
queue becomes an explicit list of pending `(time, action)` pairs fired in
time order (ties in registration order), exactly as `setTimeout` does on
the single-threaded event loop.
-/

namespace Portfolio

/-- A timeline entry as read from the content document: only the fields the
verified code paths consume (`title`, `skills_cumulative`, and the `type`
marker used to filter out synthetic past/future entries). -/
structure TimelineEvent where
  title : String
  skills_cumulative : List String
  type : Option String := none
deriving DecidableEq, Repr

/-- `timelineData.filter((item) => item.type !== 'past' && item.type !== 'future')`,
performed by both the timeline and the skills module before use. -/
def filterRealEvents (l : List TimelineEvent) : List TimelineEvent :=
  l.filter (fun e => e.type ≠ some "past" ∧ e.type ≠ some "future")

/-- JavaScript array indexing followed by `|| null`: a negative or
out-of-range index yields `undefined`, which `|| null` turns into `null`. -/
def jsIndex (l : List TimelineEvent) (i : Int) : Option TimelineEvent :=
  if i < 0 then none else l.get? i.toNat

/-- The payload of the synchronization event dispatched by
`notifySkillsSection` (`CONFIG.events.timelineIndexChanged`):
`{ index, total, eventData, displayIndex }`. -/
structure SyncPayload where
  index : Int
  total : Nat
  eventData : Option TimelineEvent
  displayIndex : Int
deriving DecidableEq, Repr

/-- `notifySkillsSection` from `section-timeline.js`: maps the display
position `currentIndex` to the data index and event payload.
`timelineData` is the filtered real-event list, `totalRealItems` the count
of real timeline DOM items. -/
def notifySkillsSection (timelineData : List TimelineEvent)
    (totalRealItems : Nat) (currentIndex : Int) : SyncPayload :=
  if currentIndex = 0 then
    { index := -1, total := totalRealItems, eventData := none,
      displayIndex := currentIndex }
  else if 0 < currentIndex ∧ currentIndex ≤ (totalRealItems : Int) then
    let dataIndex := currentIndex - 1
    { index := dataIndex, total := totalRealItems,
      eventData := jsIndex timelineData dataIndex,
      displayIndex := currentIndex }
  else
    let dataIndex := (totalRealItems : Int) - 1
    { index := dataIndex, total := totalRealItems,
      eventData := jsIndex timelineData dataIndex,
      displayIndex := currentIndex }

/-- The timeline widget's navigation state: `currentIndex` is the display
position (0 = synthetic past card, 1..N = real events, N+1 = synthetic
future card), `totalRealItems` the number of real events. -/
structure TimelineState where
  currentIndex : Int
  totalRealItems : Nat
deriving DecidableEq, Repr

/-- `goToSlide(index)`: absolute jump, rejected (early `return`) when the
target lies outside `[0, totalRealItems + 1]`. -/
def goToSlide (index : Int) (st : TimelineState) : TimelineState :=
  if index < 0 ∨ index > (st.totalRealItems : Int) + 1 then st
  else { st with currentIndex := index }

/-- `prevSlide()`: decrement guarded by `currentIndex > 0`. -/
def prevSlide (st : TimelineState) : TimelineState :=
  if st.currentIndex > 0 then { st with currentIndex := st.currentIndex - 1 }
  else st

/-- `nextSlide()`: increment guarded by `currentIndex <= totalRealItems`. -/
def nextSlide (st : TimelineState) : TimelineState :=
  if st.currentIndex ≤ (st.totalRealItems : Int) then
    { st with currentIndex := st.currentIndex + 1 }
  else st

/-- C1: for every display index in `[0, totalRealItems + 1]` the
synchronization event computes `(dataIndex, eventData)` exactly per the
index-mapping table — 0 maps to `(-1, null)`, a real position `d` maps to
`(d - 1, events[d - 1])`, the future position maps to
`(totalRealItems - 1, events[totalRealItems - 1])` — and the payload
carries `{ index, total, eventData, displayIndex }` with those values. -/
theorem timeline_index_mapping (events : List TimelineEvent) (n : Nat)
    (hlen : events.length = n) (hn : 1 ≤ n) (d : Int)
    (hd0 : 0 ≤ d) (hdn : d ≤ (n : Int) + 1) :
    (notifySkillsSection events n d).total = n ∧
    (notifySkillsSection events n d).displayIndex = d ∧
    (d = 0 → (notifySkillsSection events n d).index = -1 ∧
      (notifySkillsSection events n d).eventData = none) ∧
    (0 < d → d ≤ (n : Int) →
      (notifySkillsSection events n d).index = d - 1 ∧
      ∃ h : (d - 1).toNat < events.length,
        (notifySkillsSection events n d).eventData =
          some (events.get ⟨(d - 1).toNat, h⟩)) ∧
    ((n : Int) < d →
      (notifySkillsSection events n d).index = (n : Int) - 1 ∧
      ∃ h : n - 1 < events.length,
        (notifySkillsSection events n d).eventData =
          some (events.get ⟨n - 1, h⟩)) := by
  subst hlen
  have e0 : d = 0 → notifySkillsSection events events.length d =
      { index := -1, total := events.length, eventData := none,
        displayIndex := d } := by
    intro h
    unfold notifySkillsSection
    rw [if_pos h]
  have e1 : ∀ _ : 0 < d ∧ d ≤ (events.length : Int),
      notifySkillsSection events events.length d =
      { index := d - 1, total := events.length,
        eventData := jsIndex events (d - 1), displayIndex := d } := by
    intro h2
    have hne : ¬ d = 0 := by omega
    unfold notifySkillsSection
    rw [if_neg hne, if_pos h2]
  have e2 : ¬ d = 0 → ¬ (0 < d ∧ d ≤ (events.length : Int)) →
      notifySkillsSection events events.length d =
      { index := (events.length : Int) - 1, total := events.length,
        eventData := jsIndex events ((events.length : Int) - 1),
        displayIndex := d } := by
    intro h1 h2
    unfold notifySkillsSection
    rw [if_neg h1, if_neg h2]
  refine ⟨?_, ?_, ?_, ?_, ?_⟩
  · by_cases h0 : d = 0
    · rw [e0 h0]
    · by_cases hmid : 0 < d ∧ d ≤ (events.length : Int)
      · rw [e1 hmid]
      · rw [e2 h0 hmid]
  · by_cases h0 : d = 0
    · rw [e0 h0]
    · by_cases hmid : 0 < d ∧ d ≤ (events.length : Int)
      · rw [e1 hmid]
      · rw [e2 h0 hmid]
  · intro h0
    rw [e0 h0]
    exact ⟨rfl, rfl⟩
  · intro hpos hle
    rw [e1 ⟨hpos, hle⟩]
    have hlt : (d - 1).toNat < events.length := by omega
    refine ⟨rfl, hlt, ?_⟩
    show jsIndex events (d - 1) = _
    unfold jsIndex
    rw [if_neg (show ¬ (d - 1 < 0) by omega)]
    exact List.get?_eq_get hlt
  · intro hgt
    rw [e2 (by omega) (by omega)]
    have hlt : events.length - 1 < events.length := by omega
    refine ⟨rfl, hlt, ?_⟩
    show jsIndex events ((events.length : Int) - 1) = _
    unfold jsIndex
    rw [if_neg (show ¬ ((events.length : Int) - 1 < 0) by omega),
      show ((events.length : Int) - 1).toNat = events.length - 1 by omega]
    exact List.get?_eq_get hlt

/-- Witness for `timeline_index_mapping`: a concrete three-event fixture,
evaluated at display index 2. -/
theorem timeline_index_mapping_witness :
    (([⟨"a", ["s1"], none⟩, ⟨"b", ["s1", "s2"], none⟩,
       ⟨"c", ["s1", "s2", "s3"], none⟩] : List TimelineEvent).length = 3 ∧
     1 ≤ 3 ∧ 0 ≤ (2 : Int) ∧ (2 : Int) ≤ (3 : Int) + 1) ∧
    (notifySkillsSection
      [⟨"a", ["s1"], none⟩, ⟨"b", ["s1", "s2"], none⟩,
       ⟨"c", ["s1", "s2", "s3"], none⟩] 3 2).total = 3 := by
  refine ⟨⟨by decide, by decide, by decide, by decide⟩, ?_⟩
  exact (timeline_index_mapping
    [⟨"a", ["s1"], none⟩, ⟨"b", ["s1", "s2"], none⟩,
     ⟨"c", ["s1", "s2", "s3"], none⟩] 3 (by decide) (by decide) 2
    (by decide) (by decide)).1

/-- C5: timeline navigation keeps `currentIndex` inside
`[0, totalRealItems + 1]`, and the boundary operations are no-ops:
`goToSlide` rejects any target outside the range (in particular `-1` and
`totalRealItems + 2`), `prevSlide` at 0 and `nextSlide` at
`totalRealItems + 1` leave the state unchanged. -/
theorem timeline_navigation_bounds (st : TimelineState)
    (hlo : 0 ≤ st.currentIndex)
    (hhi : st.currentIndex ≤ (st.totalRealItems : Int) + 1) :
    (∀ i : Int, 0 ≤ (goToSlide i st).currentIndex ∧
        (goToSlide i st).currentIndex ≤ (st.totalRealItems : Int) + 1) ∧
    (0 ≤ (prevSlide st).currentIndex ∧
      (prevSlide st).currentIndex ≤ (st.totalRealItems : Int) + 1) ∧
    (0 ≤ (nextSlide st).currentIndex ∧
      (nextSlide st).currentIndex ≤ (st.totalRealItems : Int) + 1) ∧
    goToSlide (-1) st = st ∧
    goToSlide ((st.totalRealItems : Int) + 2) st = st ∧
    (st.currentIndex = 0 → prevSlide st = st) ∧
    (st.currentIndex = (st.totalRealItems : Int) + 1 → nextSlide st = st) := by
  refine ⟨?_, ?_, ?_, ?_, ?_, ?_, ?_⟩
  · intro i
    unfold goToSlide
    split
    · exact ⟨hlo, hhi⟩
    · rename_i h
      exact ⟨show (0 : Int) ≤ i by omega,
             show i ≤ (st.totalRealItems : Int) + 1 by omega⟩
  · unfold prevSlide
    split
    · rename_i h
      exact ⟨show (0 : Int) ≤ st.currentIndex - 1 by omega,
             show st.currentIndex - 1 ≤ (st.totalRealItems : Int) + 1 by omega⟩
    · exact ⟨hlo, hhi⟩
  · unfold nextSlide
    split
    · rename_i h
      exact ⟨show (0 : Int) ≤ st.currentIndex + 1 by omega,
             show st.currentIndex + 1 ≤ (st.totalRealItems : Int) + 1 by omega⟩
    · exact ⟨hlo, hhi⟩
  · unfold goToSlide
    split <;> [rfl; omega]
  · unfold goToSlide
    split <;> [rfl; omega]
  · intro h0
    unfold prevSlide
    split <;> [omega; rfl]
  · intro htop
    unfold nextSlide
    split <;> [omega; rfl]

/-- Witness for `timeline_navigation_bounds`: the initial state (display
index 1) over three real events. -/
theorem timeline_navigation_bounds_witness :
    (0 ≤ (⟨1, 3⟩ : TimelineState).currentIndex ∧
      (⟨1, 3⟩ : TimelineState).currentIndex ≤ ((3 : Nat) : Int) + 1) ∧
    goToSlide (-1) (⟨1, 3⟩ : TimelineState) = (⟨1, 3⟩ : TimelineState) := by
  refine ⟨⟨by decide, by decide⟩, ?_⟩
  exact (timeline_navigation_bounds ⟨1, 3⟩ (by decide) (by decide)).2.2.2.1

/-! ### Skill levels and tier badges (`section-skills.js`) -/

/-- One entry of `LEVEL_TIERS`: `{ min, max, badge, label: { fa, en } }`. -/
structure LevelTier where
  min : ℚ
  max : ℚ
  badge : String
  labelFa : String
  labelEn : String
deriving DecidableEq, Repr

/-- The four skill-level tiers of `section-skills.js`. -/
def LEVEL_TIERS : List LevelTier :=
  [⟨0, 25, "Beginner", "مبتدی", "Beginner"⟩,
   ⟨25, 50, "Intermediate", "متوسط", "Intermediate"⟩,
   ⟨50, 75, "Advanced", "پیشرفته", "Advanced"⟩,
   ⟨75, 100, "Expert", "حرفه‌ای", "Expert"⟩]

/-- The `{ badge, label }` object returned by `getSkillBadge`. -/
structure BadgeInfo where
  badge : String
  label : String
deriving DecidableEq, Repr

/-- `tier.label[lang] || tier.label.en`: any language other than `fa`
falls back to the English label. -/
def tierLabel (lang : String) (t : LevelTier) : String :=
  if lang = "fa" then t.labelFa else t.labelEn

/-- `getSkillBadge(percentage)`: the first tier whose half-open interval
`[min, max)` contains the percentage, defaulting to the last tier
(Expert) when none matches. -/
def getSkillBadge (lang : String) (percentage : ℚ) : BadgeInfo :=
  match LEVEL_TIERS.find?
      (fun t => decide (t.min ≤ percentage ∧ percentage < t.max)) with
  | some tier => ⟨tier.badge, tierLabel lang tier⟩
  | none =>
    let expertTier := LEVEL_TIERS.getLastD ⟨0, 0, "", "", ""⟩
    ⟨expertTier.badge, tierLabel lang expertTier⟩

/-- `Math.round` on an exact rational: round half away from zero is
`⌊x + 1/2⌋` for the non-negative values arising here (JavaScript's
`Math.round` rounds half towards `+∞`, which is `⌊x + 1/2⌋` always). -/
def jsRound (x : ℚ) : Int := ⌊x + 1 / 2⌋

/-- The loop accumulator of `calculateSkillLevel`'s scan over the
timeline: `firstAppearance`, `lastAppearance` (both `-1` while unseen)
and `appearanceCount` (appearances at positions `≤ currentIndex`). -/
structure SkillScan where
  firstAppearance : Int
  lastAppearance : Int
  appearanceCount : Nat
deriving DecidableEq, Repr

/-- The `for` loop of `calculateSkillLevel`, index-carrying tail
recursion over the timeline array. -/
def scanSkill (skillName : String) (currentIndex : Int) :
    List TimelineEvent → Nat → SkillScan → SkillScan
  | [], _, acc => acc
  | e :: rest, i, acc =>
    let acc' :=
      if skillName ∈ e.skills_cumulative then
        { firstAppearance :=
            if acc.firstAppearance = -1 then (i : Int) else acc.firstAppearance,
          lastAppearance := (i : Int),
          appearanceCount :=
            if (i : Int) ≤ currentIndex then acc.appearanceCount + 1
            else acc.appearanceCount }
      else acc
    scanSkill skillName currentIndex rest (i + 1) acc'

/-- `calculateSkillLevel(skillName, currentIndex)` from
`section-skills.js`, with the call to `Math.random()` made an explicit
parameter `rand ∈ [0, 1)`: base 20%, earned growth
`80 · appearanceCount / timelineSpan`, a `(rand − 0.5) · 16` "natural
variation", clamped to `[20, 100]` and rounded. -/
def calculateSkillLevel (timelineData : List TimelineEvent)
    (skillName : String) (currentIndex : Int) (rand : ℚ) : Int :=
  let acc := scanSkill skillName currentIndex timelineData 0 ⟨-1, -1, 0⟩
  if acc.firstAppearance = -1 ∨ acc.appearanceCount = 0 then 20
  else
    jsRound (max 20 (min 100
      (20 + 80 * ((acc.appearanceCount : ℚ) /
          ((acc.lastAppearance : ℚ) - (acc.firstAppearance : ℚ) + 1)) +
        (rand - 1 / 2) * 16)))

/-- Tier order used to state monotonicity: Beginner < Intermediate <
Advanced < Expert. -/
def badgeRank (b : String) : Nat :=
  if b = "Beginner" then 0
  else if b = "Intermediate" then 1
  else if b = "Advanced" then 2
  else if b = "Expert" then 3
  else 0

/-- Closed form of the badge selected by `getSkillBadge`: the tier scan
resolves to a single chain of threshold comparisons, with every value not
matched by a tier (negative values and values `≥ 100`) falling through to
the Expert default. -/
theorem getSkillBadge_badge_eq (lang : String) (p : ℚ) :
    (getSkillBadge lang p).badge =
      if p < 0 then "Expert"
      else if p < 25 then "Beginner"
      else if p < 50 then "Intermediate"
      else if p < 75 then "Advanced"
      else "Expert" := by
  unfold getSkillBadge LEVEL_TIERS
  by_cases h0 : p < 0
  · rw [List.find?_cons_of_neg _ (by simp; intro h; linarith),
      List.find?_cons_of_neg _ (by simp; intro h; linarith),
      List.find?_cons_of_neg _ (by simp; intro h; linarith),
      List.find?_cons_of_neg _ (by simp; intro h; linarith),
      List.find?_nil, if_pos h0]
    rfl
  · have h0' : (0 : ℚ) ≤ p := le_of_not_lt h0
    by_cases h1 : p < 25
    · rw [List.find?_cons_of_pos _ (by simp [h0', h1]),
        if_neg h0, if_pos h1]
    · have h1' : (25 : ℚ) ≤ p := le_of_not_lt h1
      by_cases h2 : p < 50
      · rw [List.find?_cons_of_neg _ (by simp; intro h; linarith),
          List.find?_cons_of_pos _ (by simp [h1', h2]),
          if_neg h0, if_neg h1, if_pos h2]
      · have h2' : (50 : ℚ) ≤ p := le_of_not_lt h2
        by_cases h3 : p < 75
        · rw [List.find?_cons_of_neg _ (by simp; intro h; linarith),
            List.find?_cons_of_neg _ (by simp; intro h; linarith),
            List.find?_cons_of_pos _ (by simp [h2', h3]),
            if_neg h0, if_neg h1, if_neg h2, if_pos h3]
        · have h3' : (75 : ℚ) ≤ p := le_of_not_lt h3
          by_cases h4 : p < 100
          · rw [List.find?_cons_of_neg _ (by simp; intro h; linarith),
              List.find?_cons_of_neg _ (by simp; intro h; linarith),
              List.find?_cons_of_neg _ (by simp; intro h; linarith),
              List.find?_cons_of_pos _ (by simp [h3', h4]),
              if_neg h0, if_neg h1, if_neg h2, if_neg h3]
          · rw [List.find?_cons_of_neg _ (by simp; intro h; linarith),
              List.find?_cons_of_neg _ (by simp; intro h; linarith),
              List.find?_cons_of_neg _ (by simp; intro h; linarith),
              List.find?_cons_of_neg _ (by simp; intro h; linarith),
              List.find?_nil, if_neg h0, if_neg h1, if_neg h2, if_neg h3]
            rfl

/-- C10: `getSkillBadge` is total and resolves the tier boundaries: each
tier test is `min ≤ percentage < max` over the half-open buckets, so 25,
50 and 75 map to the higher tier; 100 is matched by no tier and returns
Expert through the explicit fallback; and every percentage yields one of
the four badges. -/
theorem skill_badge_totality (lang : String) :
    (∀ p : ℚ, 0 ≤ p → p < 25 → (getSkillBadge lang p).badge = "Beginner") ∧
    (∀ p : ℚ, 25 ≤ p → p < 50 →
      (getSkillBadge lang p).badge = "Intermediate") ∧
    (∀ p : ℚ, 50 ≤ p → p < 75 → (getSkillBadge lang p).badge = "Advanced") ∧
    (∀ p : ℚ, 75 ≤ p → p < 100 → (getSkillBadge lang p).badge = "Expert") ∧
    (getSkillBadge lang 25).badge = "Intermediate" ∧
    (getSkillBadge lang 50).badge = "Advanced" ∧
    (getSkillBadge lang 75).badge = "Expert" ∧
    LEVEL_TIERS.find?
      (fun t => decide (t.min ≤ (100 : ℚ) ∧ (100 : ℚ) < t.max)) = none ∧
    (getSkillBadge lang 100).badge = "Expert" ∧
    (∀ p : ℚ, (getSkillBadge lang p).badge = "Beginner" ∨
      (getSkillBadge lang p).badge = "Intermediate" ∨
      (getSkillBadge lang p).badge = "Advanced" ∨
      (getSkillBadge lang p).badge = "Expert") := by
  refine ⟨?_, ?_, ?_, ?_, ?_, ?_, ?_, ?_, ?_, ?_⟩
  · intro p hp1 hp2
    rw [getSkillBadge_badge_eq, if_neg (by linarith), if_pos hp2]
  · intro p hp1 hp2
    rw [getSkillBadge_badge_eq, if_neg (by linarith),
      if_neg (by linarith), if_pos hp2]
  · intro p hp1 hp2
    rw [getSkillBadge_badge_eq, if_neg (by linarith),
      if_neg (by linarith), if_neg (by linarith), if_pos hp2]
  · intro p hp1 hp2
    rw [getSkillBadge_badge_eq, if_neg (by linarith),
      if_neg (by linarith), if_neg (by linarith), if_neg (by linarith)]
  · rw [getSkillBadge_badge_eq]
    norm_num
  · rw [getSkillBadge_badge_eq]
    norm_num
  · rw [getSkillBadge_badge_eq]
    norm_num
  · decide
  · rw [getSkillBadge_badge_eq]
    norm_num
  · intro p
    rw [getSkillBadge_badge_eq]
    split_ifs <;> simp

/-- Witness for `skill_badge_totality`: the half-open bucket facts hold
at percentage 30. -/
theorem skill_badge_totality_witness :
    ((25 : ℚ) ≤ 30 ∧ (30 : ℚ) < 50) ∧
    (getSkillBadge "en" 30).badge = "Intermediate" :=
  ⟨⟨by norm_num, by norm_num⟩,
   (skill_badge_totality "en").2.1 30 (by norm_num) (by norm_num)⟩

/-- The scan's `firstAppearance` and `lastAppearance` do not depend on
`currentIndex` (the loop only consults `currentIndex` for the count). -/
theorem scanSkill_firstLast (name : String) (i j : Int)
    (l : List TimelineEvent) : ∀ (k : Nat) (a b : SkillScan),
    a.firstAppearance = b.firstAppearance →
    a.lastAppearance = b.lastAppearance →
    (scanSkill name i l k a).firstAppearance =
      (scanSkill name j l k b).firstAppearance ∧
    (scanSkill name i l k a).lastAppearance =
      (scanSkill name j l k b).lastAppearance := by
  induction l with
  | nil => exact fun k a b hf hl => ⟨hf, hl⟩
  | cons e rest ih =>
    intro k a b hf hl
    simp only [scanSkill]
    by_cases hm : name ∈ e.skills_cumulative
    · rw [if_pos hm, if_pos hm]
      exact ih (k + 1) _ _ (by simp only [hf]) rfl
    · rw [if_neg hm, if_neg hm]
      exact ih (k + 1) a b hf hl

/-- The scan's `appearanceCount` is monotone in `currentIndex`. -/
theorem scanSkill_count_mono (name : String) (i j : Int) (hij : i ≤ j)
    (l : List TimelineEvent) : ∀ (k : Nat) (a b : SkillScan),
    a.appearanceCount ≤ b.appearanceCount →
    (scanSkill name i l k a).appearanceCount ≤
      (scanSkill name j l k b).appearanceCount := by
  induction l with
  | nil => exact fun k a b h => h
  | cons e rest ih =>
    intro k a b hab
    simp only [scanSkill]
    by_cases hm : name ∈ e.skills_cumulative
    · rw [if_pos hm, if_pos hm]
      refine ih (k + 1) _ _ ?_
      show (if (k : Int) ≤ i then a.appearanceCount + 1
          else a.appearanceCount) ≤
        (if (k : Int) ≤ j then b.appearanceCount + 1 else b.appearanceCount)
      split_ifs <;> omega
    · rw [if_neg hm, if_neg hm]
      exact ih (k + 1) a b hab

/-- Well-formedness of the scan accumulator at loop position `k`: either
the skill was never seen (all fields initial), or its first and last
appearances are genuine indices with `firstAppearance ≤ lastAppearance`. -/
def scanWF (k : Nat) (acc : SkillScan) : Prop :=
  acc.lastAppearance ≤ (k : Int) - 1 ∧
  ((acc.firstAppearance = -1 ∧ acc.lastAppearance = -1 ∧
      acc.appearanceCount = 0) ∨
   (0 ≤ acc.firstAppearance ∧ acc.firstAppearance ≤ acc.lastAppearance))

/-- The scan preserves accumulator well-formedness. -/
theorem scanSkill_wf (name : String) (i : Int) (l : List TimelineEvent) :
    ∀ (k : Nat) (a : SkillScan), scanWF k a →
    ∃ m : Nat, scanWF m (scanSkill name i l k a) := by
  induction l with
  | nil => exact fun k a h => ⟨k, h⟩
  | cons e rest ih =>
    intro k a ha
    simp only [scanSkill]
    by_cases hm : name ∈ e.skills_cumulative
    · rw [if_pos hm]
      refine ih (k + 1) _ ⟨?_, Or.inr ⟨?_, ?_⟩⟩
      · show (k : Int) ≤ ((k + 1 : Nat) : Int) - 1
        push_cast
        omega
      · show 0 ≤ (if a.firstAppearance = -1 then (k : Int)
          else a.firstAppearance)
        split_ifs with hfa
        · exact Int.natCast_nonneg k
        · rcases ha.2 with ⟨hf, _, _⟩ | ⟨hf0, _⟩
          · exact absurd hf hfa
          · exact hf0
      · show (if a.firstAppearance = -1 then (k : Int)
          else a.firstAppearance) ≤ (k : Int)
        split_ifs with hfa
        · exact le_refl _
        · rcases ha.2 with ⟨hf, _, _⟩ | ⟨_, hfl⟩
          · exact absurd hf hfa
          · have := ha.1
            omega
    · rw [if_neg hm]
      refine ih (k + 1) a ⟨?_, ha.2⟩
      have := ha.1
      push_cast
      omega

/-- Guard branch of `calculateSkillLevel`: an unseen or not-yet-counted
skill gets the base 20%. -/
theorem calculateSkillLevel_eq_guard (data : List TimelineEvent)
    (name : String) (idx : Int) (r : ℚ)
    (h : (scanSkill name idx data 0 ⟨-1, -1, 0⟩).firstAppearance = -1 ∨
      (scanSkill name idx data 0 ⟨-1, -1, 0⟩).appearanceCount = 0) :
    calculateSkillLevel data name idx r = 20 := by
  simp only [calculateSkillLevel]
  rw [if_pos h]

/-- Main branch of `calculateSkillLevel`. -/
theorem calculateSkillLevel_eq_main (data : List TimelineEvent)
    (name : String) (idx : Int) (r : ℚ)
    (h : ¬ ((scanSkill name idx data 0 ⟨-1, -1, 0⟩).firstAppearance = -1 ∨
      (scanSkill name idx data 0 ⟨-1, -1, 0⟩).appearanceCount = 0)) :
    calculateSkillLevel data name idx r =
      jsRound (max 20 (min 100
        (20 + 80 * (((scanSkill name idx data 0 ⟨-1, -1, 0⟩).appearanceCount : ℚ) /
            (((scanSkill name idx data 0 ⟨-1, -1, 0⟩).lastAppearance : ℚ) -
              ((scanSkill name idx data 0 ⟨-1, -1, 0⟩).firstAppearance : ℚ) + 1)) +
          (r - 1 / 2) * 16))) := by
  simp only [calculateSkillLevel]
  rw [if_neg h]

/-- Rounding the value clamped into `[20, 100]` stays in `[20, 100]`. -/
theorem jsRound_clamp_bounds (x : ℚ) :
    20 ≤ jsRound (max 20 (min 100 x)) ∧
    jsRound (max 20 (min 100 x)) ≤ 100 := by
  constructor
  · show (20 : Int) ≤ ⌊max (20 : ℚ) (min 100 x) + 1 / 2⌋
    refine Int.le_floor.mpr ?_
    have h20 : (20 : ℚ) ≤ max 20 (min 100 x) := le_max_left _ _
    push_cast
    linarith
  · show ⌊max (20 : ℚ) (min 100 x) + 1 / 2⌋ ≤ 100
    have hub : max (20 : ℚ) (min 100 x) ≤ 100 :=
      max_le (by norm_num) (min_le_left _ _)
    have hfl : ⌊max (20 : ℚ) (min 100 x) + 1 / 2⌋ ≤ ⌊(201 / 2 : ℚ)⌋ :=
      Int.floor_le_floor (by linarith)
    have h100 : ⌊(201 / 2 : ℚ)⌋ = 100 := by
      rw [Int.floor_eq_iff]
      norm_num
    rw [h100] at hfl
    exact hfl

/-- The computed level always lands in `[20, 100]`: the guard branch
returns 20 and the main branch clamps into `[20, 100]` before rounding. -/
theorem calculateSkillLevel_bounds (data : List TimelineEvent)
    (name : String) (idx : Int) (r : ℚ) :
    20 ≤ calculateSkillLevel data name idx r ∧
    calculateSkillLevel data name idx r ≤ 100 := by
  by_cases h : (scanSkill name idx data 0 ⟨-1, -1, 0⟩).firstAppearance = -1 ∨
      (scanSkill name idx data 0 ⟨-1, -1, 0⟩).appearanceCount = 0
  · rw [calculateSkillLevel_eq_guard data name idx r h]
    exact ⟨le_refl _, by norm_num⟩
  · rw [calculateSkillLevel_eq_main data name idx r h]
    exact jsRound_clamp_bounds _

/-- The tier rank is monotone in the percentage over `[0, 100]`. -/
theorem badgeRank_mono (lang : String) (p q : ℚ) (hp : 0 ≤ p) (hpq : p ≤ q)
    (hq : q ≤ 100) :
    badgeRank (getSkillBadge lang p).badge ≤
      badgeRank (getSkillBadge lang q).badge := by
  rw [getSkillBadge_badge_eq, getSkillBadge_badge_eq]
  split_ifs <;> first | decide | (exfalso; linarith)

/-- C3 (amended): with the `Math.random()` draw `r` made an explicit
input, `calculateSkillLevel` is a pure function of
`(skillName, currentIndex, timeline, r)`; for a fixed draw the computed
percentage is monotone non-decreasing in the timeline index, and so is
the tier assigned by `getSkillBadge`. -/
theorem skill_level_monotone (data : List TimelineEvent) (name lang : String)
    (r : ℚ) (i j : Int) (hij : i ≤ j) :
    calculateSkillLevel data name i r ≤ calculateSkillLevel data name j r ∧
    badgeRank (getSkillBadge lang
        ((calculateSkillLevel data name i r : Int) : ℚ)).badge ≤
      badgeRank (getSkillBadge lang
        ((calculateSkillLevel data name j r : Int) : ℚ)).badge := by
  have hlevel :
      calculateSkillLevel data name i r ≤ calculateSkillLevel data name j r := by
    have hfl := scanSkill_firstLast name i j data 0 ⟨-1, -1, 0⟩ ⟨-1, -1, 0⟩
      rfl rfl
    have hcnt := scanSkill_count_mono name i j hij data 0 ⟨-1, -1, 0⟩
      ⟨-1, -1, 0⟩ (le_refl 0)
    by_cases hgj : (scanSkill name j data 0 ⟨-1, -1, 0⟩).firstAppearance = -1 ∨
        (scanSkill name j data 0 ⟨-1, -1, 0⟩).appearanceCount = 0
    · have hgi : (scanSkill name i data 0 ⟨-1, -1, 0⟩).firstAppearance = -1 ∨
          (scanSkill name i data 0 ⟨-1, -1, 0⟩).appearanceCount = 0 := by
        rcases hgj with hgj | hgj
        · exact Or.inl (hfl.1.trans hgj)
        · exact Or.inr (by omega)
      rw [calculateSkillLevel_eq_guard data name i r hgi,
        calculateSkillLevel_eq_guard data name j r hgj]
    · by_cases hgi : (scanSkill name i data 0 ⟨-1, -1, 0⟩).firstAppearance = -1 ∨
          (scanSkill name i data 0 ⟨-1, -1, 0⟩).appearanceCount = 0
      · rw [calculateSkillLevel_eq_guard data name i r hgi]
        exact (calculateSkillLevel_bounds data name j r).1
      · rw [calculateSkillLevel_eq_main data name i r hgi,
          calculateSkillLevel_eq_main data name j r hgj]
        push_neg at hgi
        obtain ⟨m, hwf⟩ := scanSkill_wf name i data 0 ⟨-1, -1, 0⟩
          ⟨by norm_num, Or.inl ⟨rfl, rfl, rfl⟩⟩
        have hspan : 0 < ((scanSkill name i data 0 ⟨-1, -1, 0⟩).lastAppearance : ℚ) -
            ((scanSkill name i data 0 ⟨-1, -1, 0⟩).firstAppearance : ℚ) + 1 := by
          rcases hwf.2 with ⟨hf, _, _⟩ | ⟨_, hle⟩
          · exact absurd hf hgi.1
          · have : (scanSkill name i data 0 ⟨-1, -1, 0⟩).firstAppearance ≤
                (scanSkill name i data 0 ⟨-1, -1, 0⟩).lastAppearance := hle
            push_cast
            have : ((scanSkill name i data 0 ⟨-1, -1, 0⟩).firstAppearance : ℚ) ≤
                ((scanSkill name i data 0 ⟨-1, -1, 0⟩).lastAppearance : ℚ) := by
              exact_mod_cast this
            linarith
        refine Int.floor_le_floor ?_
        have hcast : ((scanSkill name i data 0 ⟨-1, -1, 0⟩).appearanceCount : ℚ) ≤
            ((scanSkill name j data 0 ⟨-1, -1, 0⟩).appearanceCount : ℚ) := by
          exact_mod_cast hcnt
        have hratio :
            ((scanSkill name i data 0 ⟨-1, -1, 0⟩).appearanceCount : ℚ) /
              (((scanSkill name i data 0 ⟨-1, -1, 0⟩).lastAppearance : ℚ) -
                ((scanSkill name i data 0 ⟨-1, -1, 0⟩).firstAppearance : ℚ) + 1) ≤
            ((scanSkill name j data 0 ⟨-1, -1, 0⟩).appearanceCount : ℚ) /
              (((scanSkill name j data 0 ⟨-1, -1, 0⟩).lastAppearance : ℚ) -
                ((scanSkill name j data 0 ⟨-1, -1, 0⟩).firstAppearance : ℚ) + 1) := by
          rw [← hfl.1, ← hfl.2]
          exact (div_le_div_right hspan).mpr hcast
        have hinner : (20 : ℚ) + 80 *
            (((scanSkill name i data 0 ⟨-1, -1, 0⟩).appearanceCount : ℚ) /
              (((scanSkill name i data 0 ⟨-1, -1, 0⟩).lastAppearance : ℚ) -
                ((scanSkill name i data 0 ⟨-1, -1, 0⟩).firstAppearance : ℚ) + 1)) +
            (r - 1 / 2) * 16 ≤ (20 : ℚ) + 80 *
            (((scanSkill name j data 0 ⟨-1, -1, 0⟩).appearanceCount : ℚ) /
              (((scanSkill name j data 0 ⟨-1, -1, 0⟩).lastAppearance : ℚ) -
                ((scanSkill name j data 0 ⟨-1, -1, 0⟩).firstAppearance : ℚ) + 1)) +
            (r - 1 / 2) * 16 := by linarith
        have hmx := max_le_max (le_refl (20 : ℚ))
          (min_le_min (le_refl (100 : ℚ)) hinner)
        linarith
  refine ⟨hlevel, ?_⟩
  have hbi := calculateSkillLevel_bounds data name i r
  have hbj := calculateSkillLevel_bounds data name j r
  refine badgeRank_mono lang _ _ ?_ ?_ ?_
  · exact_mod_cast le_trans (by norm_num) hbi.1
  · exact_mod_cast hlevel
  · exact_mod_cast hbj.2

/-- Witness for `skill_level_monotone`: over the concrete eight-event
fixture, with the variation draw at its midpoint, the level at timeline
index 2 does not exceed the level at index 5. -/
theorem skill_level_monotone_witness :
    (2 : Int) ≤ 5 ∧
    calculateSkillLevel (List.replicate 8 ⟨"e", ["a"], none⟩) "a" 2 (1 / 2) ≤
      calculateSkillLevel (List.replicate 8 ⟨"e", ["a"], none⟩) "a" 5 (1 / 2) :=
  ⟨by decide,
   (skill_level_monotone (List.replicate 8 ⟨"e", ["a"], none⟩) "a" "en"
     (1 / 2) 2 5 (by decide)).1⟩

/-- The eight-event fixture for the randomness counterexample: the skill
`a` appears in every event, so at timeline index 2 the deterministic part
of the computation yields exactly 50%. -/
def eventsC3 : List TimelineEvent := List.replicate 8 ⟨"e", ["a"], none⟩

/-- C3 counterexample: with the skill-appearance scan fixed, two
evaluations of `calculateSkillLevel` at the same
`(skillName, currentIndex, timeline)` but different `Math.random()`
draws (both legal, in `[0, 1)`) return different percentages — 42 versus
50 — which `getSkillBadge` buckets into different tiers (Intermediate
versus Advanced). The computation is therefore not deterministic in the
claim's sense, and the cosmetic randomness does change the tier. -/
theorem skill_level_random_counterexample :
    ((0 : ℚ) ≤ 0 ∧ (0 : ℚ) < 1 ∧ (0 : ℚ) ≤ 1 / 2 ∧ (1 / 2 : ℚ) < 1) ∧
    calculateSkillLevel eventsC3 "a" 2 0 = 42 ∧
    calculateSkillLevel eventsC3 "a" 2 (1 / 2) = 50 ∧
    calculateSkillLevel eventsC3 "a" 2 0 ≠
      calculateSkillLevel eventsC3 "a" 2 (1 / 2) ∧
    (getSkillBadge "en"
      ((calculateSkillLevel eventsC3 "a" 2 0 : Int) : ℚ)).badge =
      "Intermediate" ∧
    (getSkillBadge "en"
      ((calculateSkillLevel eventsC3 "a" 2 (1 / 2) : Int) : ℚ)).badge =
      "Advanced" := by
  have hscan : scanSkill "a" 2 eventsC3 0 ⟨-1, -1, 0⟩ = ⟨0, 7, 3⟩ := by
    decide
  have hguard : ¬ ((scanSkill "a" 2 eventsC3 0 ⟨-1, -1, 0⟩).firstAppearance = -1 ∨
      (scanSkill "a" 2 eventsC3 0 ⟨-1, -1, 0⟩).appearanceCount = 0) := by
    rw [hscan]
    decide
  have h0 : calculateSkillLevel eventsC3 "a" 2 0 = 42 := by
    rw [calculateSkillLevel_eq_main eventsC3 "a" 2 0 hguard, hscan]
    have h1 : (20 : ℚ) + 80 * (((3 : Nat) : ℚ) /
        (((7 : Int) : ℚ) - ((0 : Int) : ℚ) + 1)) + ((0 : ℚ) - 1 / 2) * 16 = 42 := by
      push_cast
      norm_num
    show jsRound (max 20 (min 100 ((20 : ℚ) + 80 * (((3 : Nat) : ℚ) /
        (((7 : Int) : ℚ) - ((0 : Int) : ℚ) + 1)) + ((0 : ℚ) - 1 / 2) * 16))) = 42
    rw [h1, min_eq_right (by norm_num : (42 : ℚ) ≤ 100),
      max_eq_right (by norm_num : (20 : ℚ) ≤ 42)]
    show ⌊(42 : ℚ) + 1 / 2⌋ = 42
    rw [Int.floor_eq_iff]
    norm_num
  have hhalf : calculateSkillLevel eventsC3 "a" 2 (1 / 2) = 50 := by
    rw [calculateSkillLevel_eq_main eventsC3 "a" 2 (1 / 2) hguard, hscan]
    have h1 : (20 : ℚ) + 80 * (((3 : Nat) : ℚ) /
        (((7 : Int) : ℚ) - ((0 : Int) : ℚ) + 1)) +
        ((1 / 2 : ℚ) - 1 / 2) * 16 = 50 := by
      push_cast
      norm_num
    show jsRound (max 20 (min 100 ((20 : ℚ) + 80 * (((3 : Nat) : ℚ) /
        (((7 : Int) : ℚ) - ((0 : Int) : ℚ) + 1)) +
        ((1 / 2 : ℚ) - 1 / 2) * 16))) = 50
    rw [h1, min_eq_right (by norm_num : (50 : ℚ) ≤ 100),
      max_eq_right (by norm_num : (20 : ℚ) ≤ 50)]
    show ⌊(50 : ℚ) + 1 / 2⌋ = 50
    rw [Int.floor_eq_iff]
    norm_num
  refine ⟨⟨by norm_num, by norm_num, by norm_num, by norm_num⟩, h0, hhalf,
    ?_, ?_, ?_⟩
  · rw [h0, hhalf]
    decide
  · rw [h0]
    rw [getSkillBadge_badge_eq]
    norm_num
  · rw [hhalf]
    rw [getSkillBadge_badge_eq]
    norm_num

/-! ### Partial loader — the Router (`js/core/router.js`)

The `fetch` suspension is modelled by an environment mapping each path to
its settled outcome (`Except.error msg` for a network rejection or a
non-ok HTTP status, `Except.ok body` for a 200 response). `loadAll`'s
`Promise.all` joins independent per-key fetches; as the configured keys
come from `Object.entries` of one object they are pairwise distinct, so
the join of the per-fragment effects equals processing the entries in
order, which is how it is modelled. -/

/-- The Router's environment: fetch outcomes, which mount points exist in
the DOM, whether `window.CONFIG`/`CONFIG.partials` is present, and the
configured `Object.entries(CONFIG.partials)`. -/
structure RouterEnv where
  fetchResult : String → Except String String
  mountExists : String → Bool
  configPresent : Bool
  partials : List (String × String)

/-- The Router's observable state: the loaded-keys set, the in-flight
guard, each mount point's injected `innerHTML`, and the logs of network
fetches performed and events emitted (in order). -/
structure RouterState where
  loadedPartials : List String
  isLoading : Bool
  mountContent : List (String × String)
  fetches : List String
  events : List String
deriving DecidableEq, Repr

/-- The inline error markup injected into a mount point by
`loadPartial`'s catch block ("Failed to load `key`" plus the error
message). -/
def errorBanner (key msg : String) : String :=
  "Failed to load " ++ key ++ ": " ++ msg

/-- The whitespace test of `String.prototype.trim` (the characters
relevant to HTML fragments). -/
def isWhitespaceChar (c : Char) : Bool :=
  (c == ' ') || (c == '\t') || (c == '\n') || (c == '\r')

/-- `html.trim()`: strip leading and trailing whitespace. -/
def jsTrim (s : String) : String :=
  String.mk
    (((s.data.dropWhile isWhitespaceChar).reverse.dropWhile
        isWhitespaceChar).reverse)

/-- `mount.innerHTML = html`: replace the content stored for one key. -/
def setMount (l : List (String × String)) (k v : String) :
    List (String × String) :=
  (k, v) :: l.filter (fun p => p.1 ≠ k)

/-- Read a mount point's current content. -/
def getMount (l : List (String × String)) (k : String) : Option String :=
  (l.find? (fun p => decide (p.1 = k))).map Prod.snd

/-- The per-fragment `CONFIG.events.partialLoaded` emission, carrying
`{ section: key }`. -/
def partialLoadedEvent (key : String) : String := "partialLoaded:" ++ key

/-- The aggregate `CONFIG.events.partialsReady` emission. -/
def partialsReadyEvent : String := "partialsReady"

/-- `Router.loadPartial(key, path, forceReload)`: skip (successfully)
when the key is already in the loaded set and no force-reload is
requested; fail without fetching when the mount point is missing; else
fetch — an error or empty body is caught, an inline error banner is
injected and `false` returned; a good body is injected, the key marked
loaded and the per-fragment event emitted. -/
def loadPartial (env : RouterEnv) (st : RouterState) (key path : String)
    (forceReload : Bool) : RouterState × Bool :=
  if key ∈ st.loadedPartials ∧ forceReload = false then (st, true)
  else if env.mountExists key = false then (st, false)
  else
    let st1 := { st with fetches := st.fetches ++ [path] }
    match env.fetchResult path with
    | Except.error msg =>
        ({ st1 with mountContent :=
            setMount st1.mountContent key (errorBanner key msg) }, false)
    | Except.ok html =>
        if jsTrim html = "" then
          let banner := errorBanner key ("Empty content received for " ++ key)
          ({ st1 with mountContent := setMount st1.mountContent key banner },
           false)
        else
          ({ st1 with
              mountContent := setMount st1.mountContent key html,
              loadedPartials := st1.loadedPartials ++ [key],
              events := st1.events ++ [partialLoadedEvent key] }, true)

/-- The join of the independent `loadPartial` calls made by `loadAll`
(no `forceReload`), entry by entry. -/
def loadSeq (env : RouterEnv) (st : RouterState) :
    List (String × String) → RouterState
  | [] => st
  | (k, p) :: rest => loadSeq env (loadPartial env st k p false).1 rest

/-- `Router.loadAll()`: rejected outright while a previous call is in
flight; otherwise sets the in-flight guard, bails out (clearing the
guard) if `CONFIG.partials` is missing, loads every configured fragment,
emits the aggregate ready event — `loadPartial` never throws, so the
`Promise.all` always resolves and the emission is unconditional — and
finally clears the guard. -/
def loadAll (env : RouterEnv) (st : RouterState) : RouterState :=
  if st.isLoading = true then st
  else
    let st1 := { st with isLoading := true }
    if env.configPresent = false then { st1 with isLoading := false }
    else
      let st2 := loadSeq env st1 env.partials
      let st3 := { st2 with events := st2.events ++ [partialsReadyEvent] }
      { st3 with isLoading := false }

/-- Skip branch of `loadPartial`: already-loaded key, no force reload. -/
theorem loadPartial_skip (env : RouterEnv) (st : RouterState)
    (key path : String) (h : key ∈ st.loadedPartials) :
    loadPartial env st key path false = (st, true) := by
  unfold loadPartial
  rw [if_pos ⟨h, rfl⟩]

/-- Missing-mount branch of `loadPartial`. -/
theorem loadPartial_nomount (env : RouterEnv) (st : RouterState)
    (key path : String) (h : ¬ key ∈ st.loadedPartials)
    (hm : env.mountExists key = false) :
    loadPartial env st key path false = (st, false) := by
  unfold loadPartial
  rw [if_neg (fun hc => h hc.1), if_pos hm]

/-- Fetch-error branch of `loadPartial`: the error is caught, an inline
banner injected, `false` returned. -/
theorem loadPartial_error (env : RouterEnv) (st : RouterState)
    (key path msg : String) (h : ¬ key ∈ st.loadedPartials)
    (hm : env.mountExists key = true)
    (hf : env.fetchResult path = Except.error msg) :
    loadPartial env st key path false =
      ({ st with
          fetches := st.fetches ++ [path],
          mountContent := setMount st.mountContent key (errorBanner key msg) },
       false) := by
  unfold loadPartial
  rw [if_neg (fun hc => h hc.1), if_neg (by simp [hm])]
  rw [hf]

/-- Successful-fetch branch of `loadPartial`. -/
theorem loadPartial_success (env : RouterEnv) (st : RouterState)
    (key path html : String) (h : ¬ key ∈ st.loadedPartials)
    (hm : env.mountExists key = true)
    (hf : env.fetchResult path = Except.ok html) (hne : jsTrim html ≠ "") :
    loadPartial env st key path false =
      ({ st with
          fetches := st.fetches ++ [path],
          mountContent := setMount st.mountContent key html,
          loadedPartials := st.loadedPartials ++ [key],
          events := st.events ++ [partialLoadedEvent key] },
       true) := by
  unfold loadPartial
  rw [if_neg (fun hc => h hc.1), if_neg (by simp [hm])]
  rw [hf]
  simp only [if_neg hne]

/-- C7: the partial loader is idempotent per key — when a
`loadPartial(key, path)` call (without `forceReload`) succeeds, a second
identical call finds the key in the loaded set and returns success
immediately: the state is unchanged and no second network fetch is
performed. -/
theorem loadPartial_idempotent (env : RouterEnv) (st : RouterState)
    (key path : String)
    (h : (loadPartial env st key path false).2 = true) :
    loadPartial env (loadPartial env st key path false).1 key path false =
      ((loadPartial env st key path false).1, true) ∧
    (loadPartial env (loadPartial env st key path false).1 key path
        false).1.fetches = (loadPartial env st key path false).1.fetches := by
  have hmem : key ∈ (loadPartial env st key path false).1.loadedPartials := by
    by_cases h1 : key ∈ st.loadedPartials
    · rw [loadPartial_skip env st key path h1]
      exact h1
    · by_cases h2 : env.mountExists key = true
      · cases hf : env.fetchResult path with
        | error msg =>
          rw [loadPartial_error env st key path msg h1 h2 hf] at h
          exact absurd h Bool.false_ne_true
        | ok html =>
          by_cases h3 : jsTrim html = ""
          · have : loadPartial env st key path false =
                ({ st with
                    fetches := st.fetches ++ [path],
                    mountContent := setMount st.mountContent key
                      (errorBanner key
                        ("Empty content received for " ++ key)) }, false) := by
              unfold loadPartial
              rw [if_neg (fun hc => h1 hc.1),
                if_neg (by simp [h2])]
              rw [hf]
              simp only [if_pos h3]
            rw [this] at h
            exact absurd h Bool.false_ne_true
          · rw [loadPartial_success env st key path html h1 h2 hf h3]
            exact List.mem_append_right _ (List.mem_singleton.mpr rfl)
      · rw [loadPartial_nomount env st key path h1
          (Bool.eq_false_iff.mpr h2)] at h
        exact absurd h Bool.false_ne_true
  have := loadPartial_skip env (loadPartial env st key path false).1 key path
    hmem
  exact ⟨this, by rw [this]⟩

/-- Witness for `loadPartial_idempotent`: a one-fragment environment in
which the first call succeeds. -/
theorem loadPartial_idempotent_witness :
    (loadPartial
      ⟨fun _ => Except.ok "<div>x</div>", fun _ => true, true,
        [("intro", "partials/intro.html")]⟩
      ⟨[], false, [], [], []⟩ "intro" "partials/intro.html" false).2 = true ∧
    loadPartial
      ⟨fun _ => Except.ok "<div>x</div>", fun _ => true, true,
        [("intro", "partials/intro.html")]⟩
      (loadPartial
        ⟨fun _ => Except.ok "<div>x</div>", fun _ => true, true,
          [("intro", "partials/intro.html")]⟩
        ⟨[], false, [], [], []⟩ "intro" "partials/intro.html" false).1
      "intro" "partials/intro.html" false =
      ((loadPartial
        ⟨fun _ => Except.ok "<div>x</div>", fun _ => true, true,
          [("intro", "partials/intro.html")]⟩
        ⟨[], false, [], [], []⟩ "intro" "partials/intro.html" false).1,
       true) := by
  refine ⟨by decide, ?_⟩
  exact (loadPartial_idempotent
    ⟨fun _ => Except.ok "<div>x</div>", fun _ => true, true,
      [("intro", "partials/intro.html")]⟩
    ⟨[], false, [], [], []⟩ "intro" "partials/intro.html" (by decide)).1

/-- State component of `loadPartial_error`. -/
theorem loadPartial_error_fst (env : RouterEnv) (st : RouterState)
    (key path msg : String) (h : ¬ key ∈ st.loadedPartials)
    (hm : env.mountExists key = true)
    (hf : env.fetchResult path = Except.error msg) :
    (loadPartial env st key path false).1 =
      { st with
          fetches := st.fetches ++ [path],
          mountContent := setMount st.mountContent key (errorBanner key msg) } := by
  rw [loadPartial_error env st key path msg h hm hf]

/-- State component of `loadPartial_success`. -/
theorem loadPartial_success_fst (env : RouterEnv) (st : RouterState)
    (key path html : String) (h : ¬ key ∈ st.loadedPartials)
    (hm : env.mountExists key = true)
    (hf : env.fetchResult path = Except.ok html) (hne : jsTrim html ≠ "") :
    (loadPartial env st key path false).1 =
      { st with
          fetches := st.fetches ++ [path],
          mountContent := setMount st.mountContent key html,
          loadedPartials := st.loadedPartials ++ [key],
          events := st.events ++ [partialLoadedEvent key] } := by
  rw [loadPartial_success env st key path html h hm hf hne]

/-- Empty-body branch of `loadPartial`: treated as a caught error. -/
theorem loadPartial_empty (env : RouterEnv) (st : RouterState)
    (key path html : String) (h : ¬ key ∈ st.loadedPartials)
    (hm : env.mountExists key = true)
    (hf : env.fetchResult path = Except.ok html) (h3 : jsTrim html = "") :
    loadPartial env st key path false =
      ({ st with
          fetches := st.fetches ++ [path],
          mountContent := setMount st.mountContent key
            (errorBanner key ("Empty content received for " ++ key)) },
       false) := by
  unfold loadPartial
  rw [if_neg (fun hc => h hc.1), if_neg (by simp [hm])]
  rw [hf]
  simp only [if_pos h3]

/-- Writing one mount point leaves every other key's content unchanged. -/
theorem getMount_setMount_ne (l : List (String × String)) (k k' v : String)
    (hne : k ≠ k') : getMount (setMount l k' v) k = getMount l k := by
  unfold getMount setMount
  have hfind : (l.filter (fun p => p.1 ≠ k')).find?
      (fun p => decide (p.1 = k)) = l.find? (fun p => decide (p.1 = k)) := by
    induction l with
    | nil => rfl
    | cons a rest ih =>
      by_cases ha : a.1 = k
      · have hkeep : a.1 ≠ k' := by rw [ha]; exact hne
        rw [List.filter_cons_of_pos (by simp [hkeep]),
          List.find?_cons_of_pos _ (by simp [ha]),
          List.find?_cons_of_pos _ (by simp [ha])]
      · by_cases ha' : a.1 = k'
        · rw [List.filter_cons_of_neg (by simp [ha']),
            List.find?_cons_of_neg _ (by simp [ha])]
          exact ih
        · rw [List.filter_cons_of_pos (by simp [ha']),
            List.find?_cons_of_neg _ (by simp [ha]),
            List.find?_cons_of_neg _ (by simp [ha])]
          exact ih
  rw [List.find?_cons_of_neg _ (by simp [Ne.symm hne]), hfind]

/-- Reading back the mount point just written. -/
theorem getMount_setMount_self (l : List (String × String)) (k v : String) :
    getMount (setMount l k v) k = some v := by
  unfold getMount setMount
  rw [List.find?_cons_of_pos _ (by simp)]
  rfl

/-- A `loadPartial` call for key `k'` leaves any other key's loaded
status and mount content untouched. -/
theorem loadPartial_frame (env : RouterEnv) (st : RouterState)
    (k' p' : String) (k : String) (hne : k ≠ k') :
    (k ∈ (loadPartial env st k' p' false).1.loadedPartials ↔
      k ∈ st.loadedPartials) ∧
    getMount (loadPartial env st k' p' false).1.mountContent k =
      getMount st.mountContent k := by
  by_cases h1 : k' ∈ st.loadedPartials
  · rw [loadPartial_skip env st k' p' h1]
    exact ⟨Iff.rfl, rfl⟩
  · by_cases h2 : env.mountExists k' = true
    · cases hf : env.fetchResult p' with
      | error msg =>
        rw [loadPartial_error env st k' p' msg h1 h2 hf]
        exact ⟨Iff.rfl, getMount_setMount_ne _ _ _ _ hne⟩
      | ok html =>
        by_cases h3 : jsTrim html = ""
        · rw [loadPartial_empty env st k' p' html h1 h2 hf h3]
          exact ⟨Iff.rfl, getMount_setMount_ne _ _ _ _ hne⟩
        · rw [loadPartial_success env st k' p' html h1 h2 hf h3]
          refine ⟨?_, getMount_setMount_ne _ _ _ _ hne⟩
          simp [List.mem_append, hne]
    · rw [loadPartial_nomount env st k' p' h1 (Bool.eq_false_iff.mpr h2)]
      exact ⟨Iff.rfl, rfl⟩

/-- `loadSeq` over entries none of which is keyed `k` leaves key `k`'s
loaded status and mount content untouched. -/
theorem loadSeq_frame (env : RouterEnv) (l : List (String × String))
    (k : String) (hk : ∀ kp ∈ l, kp.1 ≠ k) : ∀ st : RouterState,
    (k ∈ (loadSeq env st l).loadedPartials ↔ k ∈ st.loadedPartials) ∧
    getMount (loadSeq env st l).mountContent k = getMount st.mountContent k := by
  induction l with
  | nil => exact fun st => ⟨Iff.rfl, rfl⟩
  | cons kp rest ih =>
    intro st
    obtain ⟨k', p'⟩ := kp
    have hne : k ≠ k' := Ne.symm (hk (k', p') (List.mem_cons_self _ _))
    have hframe := loadPartial_frame env st k' p' k hne
    have hrest := ih (fun q hq => hk q (List.mem_cons_of_mem _ hq))
      (loadPartial env st k' p' false).1
    exact ⟨hrest.1.trans hframe.1, hrest.2.trans hframe.2⟩

/-- `loadSeq` splits over list append. -/
theorem loadSeq_append (env : RouterEnv) (l₁ l₂ : List (String × String)) :
    ∀ st : RouterState,
    loadSeq env st (l₁ ++ l₂) = loadSeq env (loadSeq env st l₁) l₂ := by
  induction l₁ with
  | nil => exact fun st => rfl
  | cons kp rest ih =>
    intro st
    obtain ⟨k, p⟩ := kp
    exact ih (loadPartial env st k p false).1

/-- The fetch performed (or skipped) by one `loadPartial` call. -/
theorem loadPartial_fetches (env : RouterEnv) (st : RouterState)
    (k p : String) :
    (loadPartial env st k p false).1.fetches = st.fetches ++
      (if ¬ k ∈ st.loadedPartials ∧ env.mountExists k = true then [p]
       else []) := by
  by_cases h1 : k ∈ st.loadedPartials
  · rw [loadPartial_skip env st k p h1, if_neg (fun hc => hc.1 h1)]
    simp
  · by_cases h2 : env.mountExists k = true
    · rw [if_pos ⟨h1, h2⟩]
      cases hf : env.fetchResult p with
      | error msg => rw [loadPartial_error env st k p msg h1 h2 hf]
      | ok html =>
        by_cases h3 : jsTrim html = ""
        · rw [loadPartial_empty env st k p html h1 h2 hf h3]
        · rw [loadPartial_success env st k p html h1 h2 hf h3]
    · rw [loadPartial_nomount env st k p h1 (Bool.eq_false_iff.mpr h2),
        if_neg (fun hc => h2 hc.2)]
      simp

/-- Which keys a `loadPartial` call adds to the loaded set. -/
theorem loadPartial_loaded_cases (env : RouterEnv) (st : RouterState)
    (k p : String) :
    (loadPartial env st k p false).1.loadedPartials = st.loadedPartials ∨
    (loadPartial env st k p false).1.loadedPartials =
      st.loadedPartials ++ [k] := by
  by_cases h1 : k ∈ st.loadedPartials
  · rw [loadPartial_skip env st k p h1]
    exact Or.inl rfl
  · by_cases h2 : env.mountExists k = true
    · cases hf : env.fetchResult p with
      | error msg =>
        rw [loadPartial_error env st k p msg h1 h2 hf]
        exact Or.inl rfl
      | ok html =>
        by_cases h3 : jsTrim html = ""
        · rw [loadPartial_empty env st k p html h1 h2 hf h3]
          exact Or.inl rfl
        · rw [loadPartial_success env st k p html h1 h2 hf h3]
          exact Or.inr rfl
    · rw [loadPartial_nomount env st k p h1 (Bool.eq_false_iff.mpr h2)]
      exact Or.inl rfl

/-- The network fetches of a whole `loadSeq` run over distinct keys: one
fetch per entry that is not yet loaded and has a mount point, in order,
and none otherwise — in particular no retry for a failed fetch. -/
theorem loadSeq_fetches (env : RouterEnv) (l : List (String × String))
    (hnodup : (l.map Prod.fst).Nodup) : ∀ st : RouterState,
    (loadSeq env st l).fetches = st.fetches ++
      (l.filter (fun kp => decide (¬ kp.1 ∈ st.loadedPartials) &&
        env.mountExists kp.1)).map Prod.snd := by
  induction l with
  | nil => intro st; simp [loadSeq]
  | cons kp rest ih =>
    intro st
    obtain ⟨k, p⟩ := kp
    have hk : ¬ k ∈ rest.map Prod.fst := by
      simp only [List.map_cons, List.nodup_cons] at hnodup
      exact hnodup.1
    have hnodup' : (rest.map Prod.fst).Nodup := by
      simp only [List.map_cons, List.nodup_cons] at hnodup
      exact hnodup.2
    show (loadSeq env (loadPartial env st k p false).1 rest).fetches = _
    rw [ih hnodup' (loadPartial env st k p false).1]
    have hfilter : rest.filter (fun kp => decide
          (¬ kp.1 ∈ (loadPartial env st k p false).1.loadedPartials) &&
          env.mountExists kp.1) =
        rest.filter (fun kp => decide (¬ kp.1 ∈ st.loadedPartials) &&
          env.mountExists kp.1) := by
      refine List.filter_congr ?_
      intro q hq
      have hqne : q.1 ≠ k := by
        intro hqk
        exact hk (hqk ▸ List.mem_map_of_mem Prod.fst hq)
      have hiff := (loadPartial_frame env st k p q.1 hqne).1
      by_cases hmem : q.1 ∈ st.loadedPartials
      · have h2 : q.1 ∈ (loadPartial env st k p false).1.loadedPartials :=
          hiff.mpr hmem
        simp [hmem, h2]
      · have h2 : ¬ q.1 ∈ (loadPartial env st k p false).1.loadedPartials :=
          fun hc => hmem (hiff.mp hc)
        simp [hmem, h2]
    rw [hfilter, loadPartial_fetches env st k p]
    by_cases helig : ¬ k ∈ st.loadedPartials ∧ env.mountExists k = true
    · rw [if_pos helig,
        List.filter_cons_of_pos (by simp [helig.1, helig.2])]
      simp
    · rw [if_neg helig, List.filter_cons_of_neg (by
        simp only [Bool.and_eq_true, decide_eq_true_eq]
        intro hc
        exact helig ⟨hc.1, hc.2⟩)]
      simp

/-- Final loaded status and mount content of one configured entry after a
whole `loadSeq` run over distinct keys, for an entry not yet loaded: a
missing mount leaves it untouched, a fetch error leaves it unloaded with
the inline error banner injected, a good fetch loads it with its body
injected. -/
theorem loadSeq_entry (env : RouterEnv) (l : List (String × String))
    (hnodup : (l.map Prod.fst).Nodup) (k p : String) (hmem : (k, p) ∈ l)
    (st : RouterState) (hnew : ¬ k ∈ st.loadedPartials) :
    (∀ msg, env.mountExists k = true → env.fetchResult p = Except.error msg →
      ¬ k ∈ (loadSeq env st l).loadedPartials ∧
      getMount (loadSeq env st l).mountContent k =
        some (errorBanner k msg)) ∧
    (∀ html, env.mountExists k = true → env.fetchResult p = Except.ok html →
      jsTrim html ≠ "" →
      k ∈ (loadSeq env st l).loadedPartials ∧
      getMount (loadSeq env st l).mountContent k = some html) := by
  obtain ⟨s, t, hsplit⟩ := List.append_of_mem hmem
  subst hsplit
  have hmap : ((s ++ (k, p) :: t).map Prod.fst) =
      s.map Prod.fst ++ k :: t.map Prod.fst := by simp
  rw [hmap] at hnodup
  have hks : ¬ k ∈ s.map Prod.fst := by
    intro hc
    exact (List.Nodup.not_mem ((List.nodup_middle).mp hnodup))
      (List.mem_append_left _ hc)
  have hkt : ¬ k ∈ t.map Prod.fst := by
    intro hc
    exact (List.Nodup.not_mem ((List.nodup_middle).mp hnodup))
      (List.mem_append_right _ hc)
  have hsframe := loadSeq_frame env s k (by
    intro q hq hqk
    exact hks (hqk ▸ List.mem_map_of_mem Prod.fst hq)) st
  have htframe := fun st' => loadSeq_frame env t k (by
    intro q hq hqk
    exact hkt (hqk ▸ List.mem_map_of_mem Prod.fst hq)) st'
  have hsplit2 : loadSeq env st (s ++ (k, p) :: t) =
      loadSeq env (loadPartial env (loadSeq env st s) k p false).1 t :=
    loadSeq_append env s ((k, p) :: t) st
  have hAnew : ¬ k ∈ (loadSeq env st s).loadedPartials :=
    fun hc => hnew (hsframe.1.mp hc)
  constructor
  · intro msg hm hf
    rw [hsplit2]
    have hfr := htframe (loadPartial env (loadSeq env st s) k p false).1
    refine ⟨fun hc => ?_, ?_⟩
    · have hc2 := hfr.1.mp hc
      rw [loadPartial_error_fst env (loadSeq env st s) k p msg hAnew hm hf]
        at hc2
      exact hAnew hc2
    · rw [hfr.2,
        loadPartial_error_fst env (loadSeq env st s) k p msg hAnew hm hf]
      show getMount (setMount (loadSeq env st s).mountContent k
        (errorBanner k msg)) k = some (errorBanner k msg)
      exact getMount_setMount_self _ _ _
  · intro html hm hf hne
    rw [hsplit2]
    have hfr := htframe (loadPartial env (loadSeq env st s) k p false).1
    refine ⟨?_, ?_⟩
    · refine hfr.1.mpr ?_
      rw [loadPartial_success_fst env (loadSeq env st s) k p html hAnew hm
        hf hne]
      show k ∈ (loadSeq env st s).loadedPartials ++ [k]
      exact List.mem_append_right _ (List.mem_singleton.mpr rfl)
    · rw [hfr.2,
        loadPartial_success_fst env (loadSeq env st s) k p html hAnew hm
          hf hne]
      show getMount (setMount (loadSeq env st s).mountContent k html) k =
        some html
      exact getMount_setMount_self _ _ _

/-- C8: a network or HTTP error for one fragment is caught inside
`loadPartial`, which injects an inline error banner into that fragment's
mount point and reports failure without throwing; `loadAll`'s join still
settles, sibling fragments still load, the aggregate partials-ready event
is still emitted, and each eligible fragment's path is fetched exactly
once — no retry. -/
theorem loadAll_error_isolation (env : RouterEnv) (st : RouterState)
    (hload : st.isLoading = false) (hcfg : env.configPresent = true)
    (hnodup : (env.partials.map Prod.fst).Nodup)
    (k p msg : String) (hmem : (k, p) ∈ env.partials)
    (hknew : ¬ k ∈ st.loadedPartials) (hkmount : env.mountExists k = true)
    (hkfail : env.fetchResult p = Except.error msg) :
    partialsReadyEvent ∈ (loadAll env st).events ∧
    getMount (loadAll env st).mountContent k = some (errorBanner k msg) ∧
    ¬ k ∈ (loadAll env st).loadedPartials ∧
    (loadAll env st).fetches = st.fetches ++
      ((env.partials.filter (fun kp =>
        decide (¬ kp.1 ∈ st.loadedPartials) &&
        env.mountExists kp.1)).map Prod.snd) ∧
    (∀ k2 p2 h2, (k2, p2) ∈ env.partials → ¬ k2 ∈ st.loadedPartials →
      env.mountExists k2 = true → env.fetchResult p2 = Except.ok h2 →
      jsTrim h2 ≠ "" →
      k2 ∈ (loadAll env st).loadedPartials ∧
      getMount (loadAll env st).mountContent k2 = some h2) := by
  have hstep : loadAll env st =
      { loadSeq env { st with isLoading := true } env.partials with
          events := (loadSeq env { st with isLoading := true }
            env.partials).events ++ [partialsReadyEvent],
          isLoading := false } := by
    unfold loadAll
    rw [if_neg (by rw [hload]; exact Bool.false_ne_true),
      if_neg (by simp [hcfg])]
  rw [hstep]
  have hseq := loadSeq_entry env env.partials hnodup k p hmem
    { st with isLoading := true } hknew
  refine ⟨?_, ?_, ?_, ?_, ?_⟩
  · exact List.mem_append_right _ (List.mem_singleton.mpr rfl)
  · exact (hseq.1 msg hkmount hkfail).2
  · exact (hseq.1 msg hkmount hkfail).1
  · exact loadSeq_fetches env env.partials hnodup { st with isLoading := true }
  · intro k2 p2 h2 hmem2 hnew2 hmount2 hok2 hne2
    have hseq2 := loadSeq_entry env env.partials hnodup k2 p2 hmem2
      { st with isLoading := true } hnew2
    exact hseq2.2 h2 hmount2 hok2 hne2

/-- Witness for `loadAll_error_isolation`: a two-fragment configuration
in which the timeline fragment's fetch fails with an HTTP 404 while the
intro fragment loads; the aggregate ready event is still emitted. -/
theorem loadAll_error_isolation_witness :
    ((⟨[], false, [], [], []⟩ : RouterState).isLoading = false ∧
      (RouterEnv.mk
        (fun path => if path = "partials/timeline.html"
          then Except.error "HTTP 404"
          else Except.ok "<div>intro</div>")
        (fun _ => true) true
        [("intro", "partials/intro.html"),
         ("timeline", "partials/timeline.html")]).configPresent = true) ∧
    partialsReadyEvent ∈ (loadAll
      (RouterEnv.mk
        (fun path => if path = "partials/timeline.html"
          then Except.error "HTTP 404"
          else Except.ok "<div>intro</div>")
        (fun _ => true) true
        [("intro", "partials/intro.html"),
         ("timeline", "partials/timeline.html")])
      ⟨[], false, [], [], []⟩).events := by
  refine ⟨⟨rfl, rfl⟩, ?_⟩
  exact (loadAll_error_isolation
    (RouterEnv.mk
      (fun path => if path = "partials/timeline.html"
        then Except.error "HTTP 404"
        else Except.ok "<div>intro</div>")
      (fun _ => true) true
      [("intro", "partials/intro.html"),
       ("timeline", "partials/timeline.html")])
    ⟨[], false, [], [], []⟩ rfl rfl (by decide)
    "timeline" "partials/timeline.html" "HTTP 404" (by decide)
    (by decide) rfl rfl).1

/-- C9: a `loadAll()` call made while another is in flight is rejected
by the `isLoading` guard — the state is returned untouched, so no fetch
is performed, nothing is injected and no event is emitted — and a
completed `loadAll()` run always clears the guard. -/
theorem loadAll_inflight_guard (env : RouterEnv) (st : RouterState) :
    (st.isLoading = true → loadAll env st = st) ∧
    (st.isLoading = false → (loadAll env st).isLoading = false) := by
  constructor
  · intro h
    unfold loadAll
    rw [if_pos h]
  · intro h
    unfold loadAll
    rw [if_neg (by rw [h]; exact Bool.false_ne_true)]
    by_cases hc : env.configPresent = false
    · rw [if_pos hc]
    · rw [if_neg hc]

/-- Witness for `loadAll_inflight_guard`: with the guard set, `loadAll`
returns the state unchanged. -/
theorem loadAll_inflight_guard_witness :
    ((⟨[], true, [], [], []⟩ : RouterState).isLoading = true) ∧
    loadAll
      ⟨fun _ => Except.ok "x", fun _ => true, true, [("intro", "p.html")]⟩
      ⟨[], true, [], [], []⟩ = ⟨[], true, [], [], []⟩ :=
  ⟨rfl,
   (loadAll_inflight_guard
     ⟨fun _ => Except.ok "x", fun _ => true, true, [("intro", "p.html")]⟩
     ⟨[], true, [], [], []⟩).1 rfl⟩

/-! ### Rendering orchestrator (`js/main.js`)

`loadAllPartials` and `loadContent` are two independent asynchronous
completions; each sets its readiness flag and then invokes
`checkRenderReady`, which renders only when both flags are up and no
render pass is already marked in progress. The environment captures
whether `DomManager`/`renderAll` and the cached content document are
available at render time. The delayed `isRendering` reset
(`setTimeout(..., 1000)` in the `finally`) is modelled as the separate
step `resetRenderFlag`, fired only after the synchronous part — and any
trailing duplicate readiness check — has run. -/

/-- Render-time environment of `checkRenderReady`. -/
structure AppEnv where
  domManagerAvailable : Bool
  cachedDataValid : Bool

/-- The orchestrator's state: the two readiness flags, the
render-in-progress flag, how many times `DomManager.renderAll` ran, and
how many `renderReady` events were emitted. -/
structure AppState where
  jsonDataReady : Bool
  partialsReady : Bool
  isRendering : Bool
  renderCount : Nat
  renderReadyCount : Nat
deriving DecidableEq, Repr

/-- `checkRenderReady()`: return while either readiness flag is down;
return while a render pass is in progress; otherwise raise the
in-progress flag and, when `DomManager` and the cached data check out,
run the full render and emit `renderReady` (the error path only logs and
notifies). -/
def checkRenderReady (env : AppEnv) (st : AppState) : AppState :=
  if ¬ (st.jsonDataReady = true ∧ st.partialsReady = true) then st
  else if st.isRendering = true then st
  else
    let st1 := { st with isRendering := true }
    if env.domManagerAvailable = true ∧ env.cachedDataValid = true then
      { st1 with
          renderCount := st1.renderCount + 1,
          renderReadyCount := st1.renderReadyCount + 1 }
    else st1

/-- The delayed `state.isRendering = false` scheduled in the `finally`
block. -/
def resetRenderFlag (st : AppState) : AppState :=
  { st with isRendering := false }

/-- Completion handler of `loadAllPartials`: mark partials ready, then
run the readiness check. -/
def finishPartials (env : AppEnv) (st : AppState) : AppState :=
  checkRenderReady env { st with partialsReady := true }

/-- Completion handler of `loadContent`: mark the JSON content ready,
then run the readiness check. -/
def finishContent (env : AppEnv) (st : AppState) : AppState :=
  checkRenderReady env { st with jsonDataReady := true }

/-- The orchestrator's initial state. -/
def initialAppState : AppState :=
  { jsonDataReady := false, partialsReady := false, isRendering := false,
    renderCount := 0, renderReadyCount := 0 }

/-- C6: a full render pass happens only once both completion signals
have fired — the readiness check returns without rendering while either
flag is down, so in either completion order the first handler renders
nothing and the last-to-finish triggers the one render — and the
render-in-progress flag makes a readiness check that arrives during a
render pass (before the delayed flag reset) a no-op rather than a second
overlapping render. -/
theorem render_readiness_join (env : AppEnv) (st : AppState)
    (henv : env.domManagerAvailable = true ∧ env.cachedDataValid = true) :
    (¬ (st.jsonDataReady = true ∧ st.partialsReady = true) →
      checkRenderReady env st = st) ∧
    (st.isRendering = true → checkRenderReady env st = st) ∧
    ((finishPartials env initialAppState).renderCount = 0 ∧
      (finishContent env (finishPartials env initialAppState)).renderCount
        = 1) ∧
    ((finishContent env initialAppState).renderCount = 0 ∧
      (finishPartials env (finishContent env initialAppState)).renderCount
        = 1) ∧
    (checkRenderReady env
        (finishContent env (finishPartials env initialAppState)) =
      finishContent env (finishPartials env initialAppState)) := by
  obtain ⟨hdom, hdata⟩ := henv
  refine ⟨?_, ?_, ?_, ?_, ?_⟩
  · intro h
    unfold checkRenderReady
    rw [if_pos h]
  · intro h
    unfold checkRenderReady
    by_cases hready : st.jsonDataReady = true ∧ st.partialsReady = true
    · rw [if_neg (not_not_intro hready), if_pos h]
    · rw [if_pos hready]
  · constructor
    · unfold finishPartials checkRenderReady initialAppState
      simp
    · unfold finishContent finishPartials checkRenderReady initialAppState
      simp [hdom, hdata]
  · constructor
    · unfold finishContent checkRenderReady initialAppState
      simp
    · unfold finishPartials finishContent checkRenderReady initialAppState
      simp [hdom, hdata]
  · unfold finishContent finishPartials checkRenderReady initialAppState
    simp [hdom, hdata]

/-- Witness for `render_readiness_join`: a healthy environment, at the
initial state. -/
theorem render_readiness_join_witness :
    ((AppEnv.mk true true).domManagerAvailable = true ∧
      (AppEnv.mk true true).cachedDataValid = true) ∧
    (finishContent (AppEnv.mk true true)
      (finishPartials (AppEnv.mk true true) initialAppState)).renderCount
      = 1 :=
  ⟨⟨rfl, rfl⟩,
   (render_readiness_join (AppEnv.mk true true) initialAppState
     ⟨rfl, rfl⟩).2.2.1.2⟩

/-! ### Skills widget state machine (`section-skills.js`)

The skills widget reacts to timeline synchronization events by diffing
skill sets and mutating the DOM through staggered `setTimeout` callbacks,
every one of which is registered in `animationQueue` via `queueTimeout`
and cancelled wholesale by `clearAnimationQueue`. The machine below makes
that explicit: `pending` is the animation queue as a list of
`(absolute fire time, action)` pairs — absolute within the current
update, since each update that finds timers pending clears the whole
queue first, so timers from different updates never coexist — and firing
pops the earliest entry (ties in registration order, as the event loop
does).

Observable state is the set of skill cards in the grid (their `data-skill`
names, in DOM order), the logical `currentSkills` list, and the progress
indicators. Purely cosmetic per-card effects (the context-box `active`
class, progress-fill widths, badge label flashes, the count's `updating`
class, the modal metadata) have no bearing on any claim; their timers are
kept — they occupy the queue exactly as in the source — but their firing
mutates nothing modelled. The per-card level passed to `addSkillBar`
feeds only the progress-fill width and the modal metadata, so it is not
carried on the add action; the level computation itself is
`calculateSkillLevel`, verified separately above. The 200ms initial-load
fallback in `initialize` (guarded by `currentSkills.length === 0`) is a
no-op on every trace considered here, because the first navigation makes
`currentSkills` non-empty. -/

/-- One queued callback of the skills widget. -/
inductive TAction where
  | ctxOff
  | markRemoving (skill : String)
  | removeCard (skill : String)
  | progressFill (skill : String)
  | badgeFlash (skill : String)
  | badgeFlashOff (skill : String)
  | phase3 (toAdd : List String) (timelineIndex : Int)
  | addCard (skill : String)
  | phase4
  | countOff
deriving DecidableEq, Repr

/-- Environment of the skills widget: the (filtered) timeline and the
keys of the content document's `skills` map (a card is only created for
a skill that has a `SkillInfo` entry). -/
structure SkillsEnv where
  timelineData : List TimelineEvent
  skillsData : List String
deriving DecidableEq, Repr

/-- Observable state of the skills widget. -/
structure SkillsState where
  currentSkills : List String
  grid : List String
  pending : List (Nat × TAction)
  isAnimating : Bool
  displayedCount : Nat
  displayedBar : ℚ
  allSkillsCount : Nat
deriving DecidableEq, Repr

/-- `calculateTotalSkills()`: the number of distinct skill names across
every event's `skills_cumulative`. -/
def calculateTotalSkills (timelineData : List TimelineEvent) : Nat :=
  (timelineData.foldl
    (fun acc e => acc ++ e.skills_cumulative.filter
      (fun s => decide (¬ s ∈ acc))) []).length

/-- `queueTimeout(callback, delay)`: register the callback in the
animation queue. -/
def skillsQueueTimeout (st : SkillsState) (t : Nat) (a : TAction) :
    SkillsState :=
  { st with pending := st.pending ++ [(t, a)] }

/-- `clearAnimationQueue()`: cancel every pending timer and drop the
animating flag. -/
def clearAnimationQueue (st : SkillsState) : SkillsState :=
  { st with pending := [], isAnimating := false }

/-- `animateSkillsChange(newSkills, eventTitle, timelineIndex)` — the
synchronous body: raise `isAnimating`, schedule the context-box reset,
diff `newSkills` against `currentSkills`, update `currentSkills`
immediately, then schedule phase 1 (staggered removals for cards present
in the grid), phase 2 (cosmetic progress/badge refresh for retained
cards), and the phase-3 gate at `removeDelay`, which will in turn
schedule the additions and phase 4. -/
def animateSkillsChange (env : SkillsEnv) (st : SkillsState)
    (newSkills : List String) (timelineIndex : Int) : SkillsState :=
  let st0 := { st with isAnimating := true }
  let st1 := skillsQueueTimeout st0 500 TAction.ctxOff
  let toAdd := newSkills.filter (fun s => decide (¬ s ∈ st.currentSkills))
  let toRemove := st.currentSkills.filter (fun s => decide (¬ s ∈ newSkills))
  let toUpdate := st.currentSkills.filter (fun s => decide (s ∈ newSkills))
  let st2 : SkillsState := { st1 with currentSkills := newSkills }
  let removals : List (Nat × TAction) := (toRemove.enum.filter
      (fun iv => decide (iv.2 ∈ st2.grid))).map
    (fun iv => (iv.1 * 30, TAction.markRemoving iv.2))
  let st3 : SkillsState := { st2 with pending := st2.pending ++ removals }
  let retained : List String := toUpdate.filter (fun s => decide (s ∈ st3.grid))
  let updates : List (Nat × TAction) :=
    if 0 < toUpdate.length ∧ 0 ≤ timelineIndex then
      retained.bind
        (fun s => [(100, TAction.progressFill s), (150, TAction.badgeFlash s)])
    else []
  let st4 : SkillsState := { st3 with pending := st3.pending ++ updates }
  let removeDelay := toRemove.length * 30 + 100
  skillsQueueTimeout st4 removeDelay (TAction.phase3 toAdd timelineIndex)

/-- `updateSkills(index, eventData)`: cancel in-flight animations, then
run the set change — the empty set for the past card, the event's
`skills_cumulative` otherwise. -/
def updateSkills (env : SkillsEnv) (st : SkillsState) (index : Int)
    (eventData : Option TimelineEvent) : SkillsState :=
  let st := if st.isAnimating = true then clearAnimationQueue st else st
  if index = -1 then animateSkillsChange env st [] (-1)
  else
    let newSkills := (eventData.map TimelineEvent.skills_cumulative).getD []
    animateSkillsChange env st newSkills index

/-- `handleTimelineChange(e)`: the synchronization event handler —
dispatch on the payload's data index, ignoring malformed payloads. -/
def handleTimelineChange (env : SkillsEnv) (st : SkillsState)
    (payload : SyncPayload) : SkillsState :=
  if payload.index = -1 then updateSkills env st (-1) none
  else if 0 ≤ payload.index ∧ payload.eventData.isSome then
    updateSkills env st payload.index payload.eventData
  else st

/-- Effect of one fired callback, at fire time `now`, on the state with
the callback already removed from the queue. -/
def applyAction (env : SkillsEnv) (now : Nat) (a : TAction)
    (st : SkillsState) : SkillsState :=
  match a with
  | TAction.ctxOff => st
  | TAction.progressFill _ => st
  | TAction.badgeFlashOff _ => st
  | TAction.countOff => st
  | TAction.badgeFlash s =>
      skillsQueueTimeout st (now + 500) (TAction.badgeFlashOff s)
  | TAction.markRemoving s =>
      skillsQueueTimeout st (now + 400) (TAction.removeCard s)
  | TAction.removeCard s => { st with grid := st.grid.erase s }
  | TAction.addCard s => { st with grid := st.grid ++ [s] }
  | TAction.phase3 toAdd timelineIndex =>
      if st.isAnimating = false then st
      else
        let adds := (toAdd.enum.filter (fun iv =>
            decide (¬ iv.2 ∈ st.grid) &&
            decide (iv.2 ∈ env.skillsData))).map
          (fun iv => (now + iv.1 * 50, TAction.addCard iv.2))
        let st1 : SkillsState := { st with pending := st.pending ++ adds }
        skillsQueueTimeout st1 (now + toAdd.length * 50 + 100) TAction.phase4
  | TAction.phase4 =>
      let st1 := { st with
          displayedCount := st.currentSkills.length,
          displayedBar := if 0 < st.allSkillsCount then
              ((st.currentSkills.length : ℚ) / (st.allSkillsCount : ℚ)) * 100
            else st.displayedBar }
      let st2 := skillsQueueTimeout st1 (now + 500) TAction.countOff
      if st2.pending.length + 1 = 1 then { st2 with isAnimating := false }
      else st2

/-- Pop the pending timer with the earliest fire time (ties resolved in
registration order, as the event loop does). -/
def popEarliest : List (Nat × TAction) →
    Option ((Nat × TAction) × List (Nat × TAction))
  | [] => none
  | x :: xs =>
    match popEarliest xs with
    | none => some (x, [])
    | some (y, rest) =>
        if x.1 ≤ y.1 then some (x, xs) else some (y, x :: rest)

/-- Fire the earliest pending timer: run its callback, then — as the
`queueTimeout` wrapper does once the callback's id has been removed —
drop `isAnimating` when the queue has drained. -/
def fireOne (env : SkillsEnv) (st : SkillsState) : SkillsState :=
  match popEarliest st.pending with
  | none => st
  | some ((t, a), rest) =>
      let st1 := applyAction env t a { st with pending := rest }
      if st1.pending.length = 0 then { st1 with isAnimating := false }
      else st1

/-- Fire up to `n` timers. -/
def settleN (env : SkillsEnv) : Nat → SkillsState → SkillsState
  | 0, st => st
  | n + 1, st =>
      match popEarliest st.pending with
      | none => st
      | some _ => settleN env n (fireOne env st)

/-- Weight of one queued action: an upper bound accounting for the
callbacks it can itself schedule. -/
def actionWeight : TAction → Nat
  | TAction.phase3 toAdd _ => toAdd.length + 3
  | TAction.markRemoving _ => 2
  | TAction.badgeFlash _ => 2
  | TAction.phase4 => 2
  | _ => 1

/-- Total weight of a queue; strictly decreases at every fire, so it
bounds the number of fires to rest. -/
def queueWeight (l : List (Nat × TAction)) : Nat :=
  (l.map (fun x => actionWeight x.2)).sum

/-- Run the pending animation sequence to rest. -/
def settle (env : SkillsEnv) (st : SkillsState) : SkillsState :=
  settleN env (queueWeight st.pending) st

/-- The widget's state right after `initialize()`: empty logical set,
empty grid (the rendered `#skills-grid` holds only the empty-state
placeholder), no timers, the progress text at `0`, and `allSkillsCount`
computed from the timeline. -/
def initialSkillsState (env : SkillsEnv) : SkillsState :=
  { currentSkills := [], grid := [], pending := [], isAnimating := false,
    displayedCount := 0, displayedBar := 0,
    allSkillsCount := calculateTotalSkills env.timelineData }

/-- Queue entries that will (eventually) remove skill `s`'s card. -/
def isRemovalFor (s : String) : Nat × TAction → Bool
  | (_, TAction.markRemoving s') => s' == s
  | (_, TAction.removeCard s') => s' == s
  | _ => false

/-- Queue entries that will append skill `s`'s card directly. -/
def isAddCardFor (s : String) : Nat × TAction → Bool
  | (_, TAction.addCard s') => s' == s
  | _ => false

/-- Phase-3 gates whose `toAdd` list carries skill `s`. -/
def isPhase3For (s : String) : Nat × TAction → Bool
  | (_, TAction.phase3 l _) => l.contains s
  | _ => false

/-- Queue entries that will (directly or via phase 4) refresh the
progress display. -/
def isProgressAct : Nat × TAction → Bool
  | (_, TAction.phase3 _ _) => true
  | (_, TAction.phase4) => true
  | _ => false

/-- Number of pending removal steps for skill `s`. -/
def remsFor (s : String) (l : List (Nat × TAction)) : Nat :=
  l.countP (isRemovalFor s)

/-- Number of pending add paths for skill `s` (direct card adds plus
phase-3 gates listing it). -/
def addsFor (s : String) (l : List (Nat × TAction)) : Nat :=
  l.countP (fun x => isAddCardFor s x || isPhase3For s x)

/-- `popEarliest` yields `none` exactly on the empty queue. -/
theorem popEarliest_eq_none {l : List (Nat × TAction)}
    (h : popEarliest l = none) : l = [] := by
  cases l with
  | nil => rfl
  | cons x xs =>
    exfalso
    simp only [popEarliest] at h
    cases hxs : popEarliest xs with
    | none =>
      simp only [hxs] at h
      exact Option.noConfusion h
    | some yr =>
      obtain ⟨y, rest⟩ := yr
      simp only [hxs] at h
      by_cases hle : x.1 ≤ y.1
      · rw [if_pos hle] at h
        exact Option.noConfusion h
      · rw [if_neg hle] at h
        exact Option.noConfusion h

/-- The popped entry together with the remainder is a permutation of the
original queue. -/
theorem popEarliest_perm :
    ∀ {l : List (Nat × TAction)} {x : Nat × TAction}
      {rest : List (Nat × TAction)},
    popEarliest l = some (x, rest) → l.Perm (x :: rest) := by
  intro l
  induction l with
  | nil => intro x rest h; exact Option.noConfusion h
  | cons a xs ih =>
    intro x rest h
    simp only [popEarliest] at h
    cases hxs : popEarliest xs with
    | none =>
      simp only [hxs] at h
      have hnil : xs = [] := popEarliest_eq_none hxs
      subst hnil
      cases h
      exact List.Perm.refl _
    | some yr =>
      obtain ⟨y, r⟩ := yr
      simp only [hxs] at h
      by_cases hle : a.1 ≤ y.1
      · rw [if_pos hle] at h
        cases h
        exact List.Perm.refl _
      · rw [if_neg hle] at h
        cases h
        exact (List.Perm.cons a (ih hxs)).trans (List.Perm.swap _ a r)

/-- A non-empty queue always pops something. -/
theorem popEarliest_isSome {l : List (Nat × TAction)} (h : l ≠ []) :
    ∃ x rest, popEarliest l = some (x, rest) := by
  cases hp : popEarliest l with
  | none => exact absurd (popEarliest_eq_none hp) h
  | some xr =>
    obtain ⟨a, b⟩ := xr
    exact ⟨a, b, rfl⟩

/-- Popping splits any `countP` of the queue. -/
theorem countP_pop (p : Nat × TAction → Bool) {l : List (Nat × TAction)}
    {x : Nat × TAction} {rest : List (Nat × TAction)}
    (hperm : l.Perm (x :: rest)) :
    l.countP p = (if p x then 1 else 0) + rest.countP p := by
  rw [hperm.countP_eq, List.countP_cons]
  omega

/-- Queue weight is permutation-invariant. -/
theorem queueWeight_perm {l l' : List (Nat × TAction)} (h : l.Perm l') :
    queueWeight l = queueWeight l' :=
  List.Perm.sum_eq (h.map _)

/-- Queue weight splits over append. -/
theorem queueWeight_append (l₁ l₂ : List (Nat × TAction)) :
    queueWeight (l₁ ++ l₂) = queueWeight l₁ + queueWeight l₂ := by
  unfold queueWeight
  rw [List.map_append, List.sum_append]

/-- Every action weighs at least one. -/
theorem actionWeight_pos (a : TAction) : 0 < actionWeight a := by
  cases a <;> simp [actionWeight]

/-- A non-empty queue has positive weight. -/
theorem queueWeight_pos {l : List (Nat × TAction)} (h : l ≠ []) :
    0 < queueWeight l := by
  cases l with
  | nil => exact absurd rfl h
  | cons x xs =>
    unfold queueWeight
    rw [List.map_cons, List.sum_cons]
    have := actionWeight_pos x.2
    omega

/-- A queue of weight-one actions weighs its length. -/
theorem queueWeight_ones (l : List (Nat × TAction))
    (h : ∀ x ∈ l, actionWeight x.2 = 1) : queueWeight l = l.length := by
  induction l with
  | nil => rfl
  | cons x xs ih =>
    unfold queueWeight
    rw [List.map_cons, List.sum_cons]
    have hx := h x (List.mem_cons_self x xs)
    have hxs := ih (fun y hy => h y (List.mem_cons_of_mem x hy))
    unfold queueWeight at hxs
    rw [List.length_cons, hx, hxs]
    omega

/-- Firing one timer strictly decreases the queue weight: each callback
schedules strictly less weight than its own. -/
theorem fireOne_weight (env : SkillsEnv) (st : SkillsState)
    (hne : st.pending ≠ []) :
    queueWeight (fireOne env st).pending < queueWeight st.pending := by
  obtain ⟨x, rest, hpop⟩ := popEarliest_isSome hne
  obtain ⟨t, a⟩ := x
  have hperm := popEarliest_perm hpop
  have hsplit : queueWeight st.pending =
      actionWeight a + queueWeight rest := by
    rw [queueWeight_perm hperm]
    unfold queueWeight
    rw [List.map_cons, List.sum_cons]
  simp only [fireOne, hpop]
  have hgoal : ∀ st1 : SkillsState,
      queueWeight st1.pending < queueWeight st.pending →
      queueWeight (if st1.pending.length = 0
        then { st1 with isAnimating := false } else st1).pending <
        queueWeight st.pending := by
    intro st1 h1
    by_cases hlen : st1.pending.length = 0
    · rw [if_pos hlen]
      exact h1
    · rw [if_neg hlen]
      exact h1
  apply hgoal
  cases a with
  | ctxOff =>
    show queueWeight rest < _
    rw [hsplit]
    simp [actionWeight]
  | progressFill s =>
    show queueWeight rest < _
    rw [hsplit]
    simp [actionWeight]
  | badgeFlashOff s =>
    show queueWeight rest < _
    rw [hsplit]
    simp [actionWeight]
  | countOff =>
    show queueWeight rest < _
    rw [hsplit]
    simp [actionWeight]
  | badgeFlash s =>
    show queueWeight (rest ++ [(t + 500, TAction.badgeFlashOff s)]) < _
    rw [hsplit, queueWeight_append]
    have h1 : queueWeight [(t + 500, TAction.badgeFlashOff s)] = 1 := rfl
    have h2 : actionWeight (TAction.badgeFlash s) = 2 := rfl
    omega
  | markRemoving s =>
    show queueWeight (rest ++ [(t + 400, TAction.removeCard s)]) < _
    rw [hsplit, queueWeight_append]
    have h1 : queueWeight [(t + 400, TAction.removeCard s)] = 1 := rfl
    have h2 : actionWeight (TAction.markRemoving s) = 2 := rfl
    omega
  | removeCard s =>
    show queueWeight rest < _
    rw [hsplit]
    simp [actionWeight]
  | addCard s =>
    show queueWeight rest < _
    rw [hsplit]
    simp [actionWeight]
  | phase4 =>
    have hpend : (applyAction env t TAction.phase4
        { st with pending := rest }).pending =
        rest ++ [(t + 500, TAction.countOff)] := by
      simp only [applyAction, skillsQueueTimeout]
      split
      · rfl
      · rfl
    rw [hpend, hsplit, queueWeight_append]
    have h1 : queueWeight [(t + 500, TAction.countOff)] = 1 := rfl
    have h2 : actionWeight TAction.phase4 = 2 := rfl
    omega
  | phase3 toAdd idx =>
    simp only [applyAction]
    by_cases hanim : ({ st with pending := rest } : SkillsState).isAnimating
        = false
    · rw [if_pos hanim]
      show queueWeight rest < _
      rw [hsplit]
      have := actionWeight_pos (TAction.phase3 toAdd idx)
      omega
    · rw [if_neg hanim]
      show queueWeight ((rest ++
          ((toAdd.enum.filter (fun iv =>
              decide (¬ iv.2 ∈ ({ st with pending := rest } : SkillsState).grid) &&
              decide (iv.2 ∈ env.skillsData))).map
            (fun iv => (t + iv.1 * 50, TAction.addCard iv.2)))) ++
          [(t + toAdd.length * 50 + 100, TAction.phase4)]) < _
      rw [hsplit, queueWeight_append, queueWeight_append]
      have hadds : queueWeight ((toAdd.enum.filter (fun iv =>
          decide (¬ iv.2 ∈ ({ st with pending := rest } : SkillsState).grid) &&
          decide (iv.2 ∈ env.skillsData))).map
            (fun iv => (t + iv.1 * 50, TAction.addCard iv.2))) ≤
          toAdd.length := by
        have hlen : ((toAdd.enum.filter (fun iv =>
            decide (¬ iv.2 ∈ ({ st with pending := rest } : SkillsState).grid) &&
            decide (iv.2 ∈ env.skillsData))).map
              (fun iv => (t + iv.1 * 50, TAction.addCard iv.2))).length ≤
            toAdd.length := by
          rw [List.length_map]
          calc (toAdd.enum.filter _).length ≤ toAdd.enum.length :=
                List.length_filter_le _ _
            _ = toAdd.length := List.enum_length
        have hones : queueWeight ((toAdd.enum.filter (fun iv =>
            decide (¬ iv.2 ∈ ({ st with pending := rest } : SkillsState).grid) &&
            decide (iv.2 ∈ env.skillsData))).map
              (fun iv => (t + iv.1 * 50, TAction.addCard iv.2))) =
            ((toAdd.enum.filter (fun iv =>
            decide (¬ iv.2 ∈ ({ st with pending := rest } : SkillsState).grid) &&
            decide (iv.2 ∈ env.skillsData))).map
              (fun iv => (t + iv.1 * 50, TAction.addCard iv.2))).length := by
          apply queueWeight_ones
          intro x hx
          simp only [List.mem_map] at hx
          obtain ⟨iv, _, hiv⟩ := hx
          rw [← hiv]
          rfl
        rw [hones]
        exact hlen
      have hp4 : queueWeight [(t + toAdd.length * 50 + 100, TAction.phase4)]
          = 2 := by
        simp [queueWeight, actionWeight]
      have hw : actionWeight (TAction.phase3 toAdd idx) = toAdd.length + 3 :=
        rfl
      omega

/-- Count of entries of `l.enum` whose payload satisfies `p`. -/
theorem countP_enum (p : String → Bool) (l : List String) :
    l.enum.countP (fun iv => p iv.2) = l.countP p := by
  have h1 := List.countP_map p Prod.snd l.enum
  rw [List.enum_map_snd] at h1
  exact h1.symm

/-- Over a duplicate-free list, entries equal to `s` and passing `Q` are
counted at most once — exactly once when `s` is a member passing `Q`. -/
theorem countP_beq_nodup (l : List String) (hnd : l.Nodup) (s : String)
    (Q : String → Bool) :
    l.countP (fun y => (y == s) && Q y) =
      if s ∈ l ∧ Q s = true then 1 else 0 := by
  induction l with
  | nil => simp
  | cons a xs ih =>
    rw [List.nodup_cons] at hnd
    rw [List.countP_cons, ih hnd.2]
    by_cases ha : a = s
    · subst ha
      have h1 : ¬ (a ∈ xs ∧ Q a = true) := fun hc => hnd.1 hc.1
      rw [if_neg h1]
      by_cases hq : Q a = true
      · have hpa : ((a == a) && Q a) = true := by simp [hq]
        rw [hpa, if_pos rfl, if_pos ⟨List.mem_cons_self a xs, hq⟩]
      · have hpa : ((a == a) && Q a) = false := by
          simp only [beq_self_eq_true, Bool.true_and]
          exact Bool.eq_false_iff.mpr hq
        rw [hpa, if_neg Bool.false_ne_true,
          if_neg (fun hc => hq hc.2)]
    · have hpa : ((a == s) && Q a) = false := by
        simp [ha]
      rw [hpa, if_neg Bool.false_ne_true]
      by_cases hm : s ∈ xs ∧ Q s = true
      · rw [if_pos hm, if_pos ⟨List.mem_cons_of_mem _ hm.1, hm.2⟩]
      · rw [if_neg hm, if_neg (fun hc => hm ⟨(List.mem_cons.mp hc.1).resolve_left
          (fun h => ha h.symm), hc.2⟩)]

/-- Entries that touch no modelled observable: not a removal or add for
any skill, and not a progress refresh. -/
def neutralEntry (q : Nat × TAction) : Prop :=
  (∀ s, isRemovalFor s q = false) ∧ (∀ s, isAddCardFor s q = false) ∧
  (∀ s, isPhase3For s q = false) ∧ isProgressAct q = false

/-- The settle invariant: during an uninterrupted animation run whose
logical target is `target`, the queue contains exactly the removal steps
for the cards that must go, exactly one add path for every target skill
not yet in the grid, and a pending progress refresh unless the progress
display already shows the target; the grid stays duplicate-free and
`currentSkills` stays at the target throughout. -/
structure SettleInv (env : SkillsEnv) (target : List String)
    (st : SkillsState) : Prop where
  cur : st.currentSkills = target
  gridNodup : st.grid.Nodup
  targetNodup : target.Nodup
  anim : st.pending ≠ [] → st.isAnimating = true
  remSpec : ∀ s, 0 < remsFor s st.pending → s ∈ st.grid ∧ ¬ s ∈ target
  remUniq : ∀ s, remsFor s st.pending ≤ 1
  addCardSpec : ∀ s, 0 < st.pending.countP (isAddCardFor s) →
      s ∈ target ∧ ¬ s ∈ st.grid
  phase3Spec : ∀ t l i, (t, TAction.phase3 l i) ∈ st.pending →
      l.Nodup ∧ ∀ s ∈ l, s ∈ target ∧ s ∈ env.skillsData
  addUniq : ∀ s, addsFor s st.pending ≤ 1
  needAdd : ∀ s, s ∈ target → ¬ s ∈ st.grid → 0 < addsFor s st.pending
  needRem : ∀ s, s ∈ st.grid → ¬ s ∈ target → 0 < remsFor s st.pending
  progress : 0 < st.pending.countP isProgressAct ∨
      (st.displayedCount = target.length ∧
        (0 < st.allSkillsCount →
          st.displayedBar =
            ((target.length : ℚ) / (st.allSkillsCount : ℚ)) * 100))

/-- A phase-3 gate is a progress entry. -/
theorem phase3_isProgress (t : Nat) (l : List String) (i : Int) :
    isProgressAct (t, TAction.phase3 l i) = true := rfl

/-- Firing a neutral entry that spawns only neutral entries preserves
the invariant. -/
theorem settleInv_neutral (env : SkillsEnv) (target : List String)
    (st : SkillsState) (hinv : SettleInv env target st)
    {x : Nat × TAction} {rest spawned : List (Nat × TAction)}
    (hperm : st.pending.Perm (x :: rest))
    (hanim : st.isAnimating = true)
    (hx : neutralEntry x) (hs : ∀ q ∈ spawned, neutralEntry q) :
    SettleInv env target { st with pending := rest ++ spawned } := by
  have hrem : ∀ s, remsFor s (rest ++ spawned) = remsFor s st.pending := by
    intro s
    unfold remsFor
    rw [List.countP_append, countP_pop (isRemovalFor s) hperm, hx.1 s]
    have hz : spawned.countP (isRemovalFor s) = 0 :=
      List.countP_eq_zero.mpr (fun q hq => by rw [(hs q hq).1 s]; exact
        Bool.false_ne_true)
    rw [hz]
    simp
  have haddc : ∀ s, (rest ++ spawned).countP (isAddCardFor s) =
      st.pending.countP (isAddCardFor s) := by
    intro s
    rw [List.countP_append, countP_pop (isAddCardFor s) hperm, hx.2.1 s]
    have hz : spawned.countP (isAddCardFor s) = 0 :=
      List.countP_eq_zero.mpr (fun q hq => by rw [(hs q hq).2.1 s]; exact
        Bool.false_ne_true)
    rw [hz]
    simp
  have hadds : ∀ s, addsFor s (rest ++ spawned) = addsFor s st.pending := by
    intro s
    unfold addsFor
    rw [List.countP_append,
      countP_pop (fun q => isAddCardFor s q || isPhase3For s q) hperm]
    have hxa : (isAddCardFor s x || isPhase3For s x) = false := by
      rw [hx.2.1 s, hx.2.2.1 s]
      rfl
    rw [hxa]
    have hz : spawned.countP (fun q => isAddCardFor s q || isPhase3For s q)
        = 0 :=
      List.countP_eq_zero.mpr (fun q hq => by
        rw [(hs q hq).2.1 s, (hs q hq).2.2.1 s]; exact Bool.false_ne_true)
    rw [hz]
    simp
  have hprog : (rest ++ spawned).countP isProgressAct =
      st.pending.countP isProgressAct := by
    rw [List.countP_append, countP_pop isProgressAct hperm, hx.2.2.2]
    have hz : spawned.countP isProgressAct = 0 :=
      List.countP_eq_zero.mpr (fun q hq => by rw [(hs q hq).2.2.2]; exact
        Bool.false_ne_true)
    rw [hz]
    simp
  refine { cur := hinv.cur, gridNodup := hinv.gridNodup,
           targetNodup := hinv.targetNodup,
           anim := fun _ => hanim,
           remSpec := ?_, remUniq := ?_, addCardSpec := ?_,
           phase3Spec := ?_, addUniq := ?_, needAdd := ?_, needRem := ?_,
           progress := ?_ }
  · intro s hpos
    exact hinv.remSpec s (by rw [← hrem s]; exact hpos)
  · intro s
    rw [show remsFor s ({ st with pending := rest ++ spawned } :
      SkillsState).pending = remsFor s st.pending from hrem s]
    exact hinv.remUniq s
  · intro s hpos
    exact hinv.addCardSpec s (by rw [← haddc s]; exact hpos)
  · intro t l i hmem
    rcases List.mem_append.mp hmem with hm | hm
    · exact hinv.phase3Spec t l i ((hperm.mem_iff).mpr
        (List.mem_cons_of_mem _ hm))
    · have hcontra := (hs _ hm).2.2.2
      rw [phase3_isProgress] at hcontra
      exact Bool.noConfusion hcontra
  · intro s
    rw [show addsFor s ({ st with pending := rest ++ spawned } :
      SkillsState).pending = addsFor s st.pending from hadds s]
    exact hinv.addUniq s
  · intro s hst hsg
    rw [show addsFor s ({ st with pending := rest ++ spawned } :
      SkillsState).pending = addsFor s st.pending from hadds s]
    exact hinv.needAdd s hst hsg
  · intro s hsg hst
    rw [show remsFor s ({ st with pending := rest ++ spawned } :
      SkillsState).pending = remsFor s st.pending from hrem s]
    exact hinv.needRem s hsg hst
  · rcases hinv.progress with hp | hp
    · exact Or.inl (by rw [show ({ st with pending := rest ++ spawned } :
        SkillsState).pending.countP isProgressAct =
          st.pending.countP isProgressAct from hprog]; exact hp)
    · exact Or.inr hp

/-- Transport of the settle invariant across a pending-queue replacement
that preserves every classifier count; grid and display fields untouched. -/
theorem settleInv_counts (env : SkillsEnv) (target : List String)
    (st : SkillsState) (hinv : SettleInv env target st)
    (pend' : List (Nat × TAction)) (hanim : st.isAnimating = true)
    (hrem : ∀ s, remsFor s pend' = remsFor s st.pending)
    (haddc : ∀ s, pend'.countP (isAddCardFor s) =
      st.pending.countP (isAddCardFor s))
    (hadds : ∀ s, addsFor s pend' = addsFor s st.pending)
    (hph3 : ∀ t l i, (t, TAction.phase3 l i) ∈ pend' →
      l.Nodup ∧ ∀ s ∈ l, s ∈ target ∧ s ∈ env.skillsData)
    (hprog : pend'.countP isProgressAct = st.pending.countP isProgressAct) :
    SettleInv env target { st with pending := pend' } := by
  refine { cur := hinv.cur, gridNodup := hinv.gridNodup,
           targetNodup := hinv.targetNodup, anim := fun _ => hanim,
           remSpec := ?_, remUniq := ?_, addCardSpec := ?_,
           phase3Spec := hph3, addUniq := ?_, needAdd := ?_, needRem := ?_,
           progress := ?_ }
  · intro s hpos
    exact hinv.remSpec s (by rw [← hrem s]; exact hpos)
  · intro s
    rw [show remsFor s ({ st with pending := pend' } :
      SkillsState).pending = remsFor s st.pending from hrem s]
    exact hinv.remUniq s
  · intro s hpos
    exact hinv.addCardSpec s (by rw [← haddc s]; exact hpos)
  · intro s
    rw [show addsFor s ({ st with pending := pend' } :
      SkillsState).pending = addsFor s st.pending from hadds s]
    exact hinv.addUniq s
  · intro s hst hsg
    rw [show addsFor s ({ st with pending := pend' } :
      SkillsState).pending = addsFor s st.pending from hadds s]
    exact hinv.needAdd s hst hsg
  · intro s hsg hst
    rw [show remsFor s ({ st with pending := pend' } :
      SkillsState).pending = remsFor s st.pending from hrem s]
    exact hinv.needRem s hsg hst
  · rcases hinv.progress with hp | hp
    · exact Or.inl (by
        rw [show ({ st with pending := pend' } :
          SkillsState).pending.countP isProgressAct =
          st.pending.countP isProgressAct from hprog]
        exact hp)
    · exact Or.inr hp

/-- Firing a `markRemoving` step replaces it by the matching `removeCard`
step at `now + 400`: every classifier count is unchanged. -/
theorem settleInv_markRemoving (env : SkillsEnv) (target : List String)
    (st : SkillsState) (hinv : SettleInv env target st)
    (t : Nat) (sp : String) {rest : List (Nat × TAction)}
    (hperm : st.pending.Perm ((t, TAction.markRemoving sp) :: rest))
    (hanim : st.isAnimating = true) :
    SettleInv env target { st with pending :=
      rest ++ [(t + 400, TAction.removeCard sp)] } := by
  apply settleInv_counts env target st hinv _ hanim
  · intro s
    unfold remsFor
    rw [List.countP_append, countP_pop (isRemovalFor s) hperm,
      List.countP_cons, List.countP_nil]
    have h1 : isRemovalFor s (t + 400, TAction.removeCard sp) =
        isRemovalFor s (t, TAction.markRemoving sp) := rfl
    rw [h1]
    omega
  · intro s
    rw [List.countP_append, countP_pop (isAddCardFor s) hperm,
      List.countP_cons, List.countP_nil]
    have h1 : isAddCardFor s (t + 400, TAction.removeCard sp) = false := rfl
    have h2 : isAddCardFor s (t, TAction.markRemoving sp) = false := rfl
    rw [h1, h2, if_neg Bool.false_ne_true]
    omega
  · intro s
    unfold addsFor
    rw [List.countP_append,
      countP_pop (fun x => isAddCardFor s x || isPhase3For s x) hperm,
      List.countP_cons, List.countP_nil]
    have h1 : (isAddCardFor s (t + 400, TAction.removeCard sp) ||
        isPhase3For s (t + 400, TAction.removeCard sp)) = false := rfl
    have h2 : (isAddCardFor s (t, TAction.markRemoving sp) ||
        isPhase3For s (t, TAction.markRemoving sp)) = false := rfl
    rw [h1, h2, if_neg Bool.false_ne_true]
    omega
  · intro t' l i hmem
    rcases List.mem_append.mp hmem with hm | hm
    · exact hinv.phase3Spec t' l i (hperm.mem_iff.mpr
        (List.mem_cons_of_mem _ hm))
    · rw [List.mem_singleton] at hm
      exact TAction.noConfusion (congrArg Prod.snd hm)
  · rw [List.countP_append, countP_pop isProgressAct hperm,
      List.countP_cons, List.countP_nil]
    have h1 : isProgressAct (t + 400, TAction.removeCard sp) = false := rfl
    have h2 : isProgressAct (t, TAction.markRemoving sp) = false := rfl
    rw [h1, h2, if_neg Bool.false_ne_true]
    omega

/-- Firing a `removeCard` step erases that card from the grid and
consumes the (unique) pending removal for it. -/
theorem settleInv_removeCard (env : SkillsEnv) (target : List String)
    (st : SkillsState) (hinv : SettleInv env target st)
    (t : Nat) (sp : String) {rest : List (Nat × TAction)}
    (hperm : st.pending.Perm ((t, TAction.removeCard sp) :: rest))
    (hanim : st.isAnimating = true) :
    SettleInv env target
      { st with pending := rest, grid := st.grid.erase sp } := by
  have hcnt : ∀ s, remsFor s st.pending =
      (if (sp == s) = true then 1 else 0) + remsFor s rest := by
    intro s
    unfold remsFor
    rw [countP_pop (isRemovalFor s) hperm]
    rfl
  have hself : (sp == sp) = true := beq_self_eq_true sp
  have hcnt1 : remsFor sp st.pending = 1 + remsFor sp rest := by
    rw [hcnt sp, if_pos hself]
  have hpos : 0 < remsFor sp st.pending := by rw [hcnt1]; omega
  have hspg := hinv.remSpec sp hpos
  have hrest0 : remsFor sp rest = 0 := by
    have h := hinv.remUniq sp
    rw [hcnt1] at h
    omega
  have hcnt_ne : ∀ s, s ≠ sp → remsFor s rest = remsFor s st.pending := by
    intro s hne
    have hbe : (sp == s) = false :=
      beq_eq_false_iff_ne.mpr (fun h => hne h.symm)
    rw [hcnt s, hbe, if_neg Bool.false_ne_true]
    omega
  have hadds : ∀ s, addsFor s rest = addsFor s st.pending := by
    intro s
    unfold addsFor
    rw [countP_pop (fun x => isAddCardFor s x || isPhase3For s x) hperm]
    have h1 : (isAddCardFor s (t, TAction.removeCard sp) ||
        isPhase3For s (t, TAction.removeCard sp)) = false := rfl
    rw [h1, if_neg Bool.false_ne_true]
    omega
  have haddc : ∀ s, rest.countP (isAddCardFor s) =
      st.pending.countP (isAddCardFor s) := by
    intro s
    rw [countP_pop (isAddCardFor s) hperm]
    have h1 : isAddCardFor s (t, TAction.removeCard sp) = false := rfl
    rw [h1, if_neg Bool.false_ne_true]
    omega
  have hprog : rest.countP isProgressAct =
      st.pending.countP isProgressAct := by
    rw [countP_pop isProgressAct hperm]
    have h1 : isProgressAct (t, TAction.removeCard sp) = false := rfl
    rw [h1, if_neg Bool.false_ne_true]
    omega
  refine { cur := hinv.cur, gridNodup := hinv.gridNodup.erase sp,
           targetNodup := hinv.targetNodup, anim := fun _ => hanim,
           remSpec := ?_, remUniq := ?_, addCardSpec := ?_, phase3Spec := ?_,
           addUniq := ?_, needAdd := ?_, needRem := ?_, progress := ?_ }
  · intro s hpos'
    have hp2 : 0 < remsFor s rest := hpos'
    by_cases hse : s = sp
    · subst hse
      rw [hrest0] at hp2
      exact absurd hp2 (lt_irrefl 0)
    · have hold := hinv.remSpec s (by rw [← hcnt_ne s hse]; exact hp2)
      exact ⟨(List.mem_erase_of_ne hse).mpr hold.1, hold.2⟩
  · intro s
    show remsFor s rest ≤ 1
    by_cases hse : s = sp
    · subst hse; rw [hrest0]; omega
    · rw [hcnt_ne s hse]; exact hinv.remUniq s
  · intro s hpos'
    have hp2 : 0 < rest.countP (isAddCardFor s) := hpos'
    have hold := hinv.addCardSpec s (by rw [← haddc s]; exact hp2)
    exact ⟨hold.1, fun hc => hold.2 (List.mem_of_mem_erase hc)⟩
  · intro t' l i hmem
    exact hinv.phase3Spec t' l i (hperm.mem_iff.mpr
      (List.mem_cons_of_mem _ hmem))
  · intro s
    show addsFor s rest ≤ 1
    rw [hadds s]; exact hinv.addUniq s
  · intro s hst hsg
    show 0 < addsFor s rest
    have hsg2 : ¬ s ∈ st.grid := by
      intro hc
      by_cases hse : s = sp
      · exact hspg.2 (hse ▸ hst)
      · exact hsg ((List.mem_erase_of_ne hse).mpr hc)
    rw [hadds s]
    exact hinv.needAdd s hst hsg2
  · intro s hsg hst
    have hm := (hinv.gridNodup.mem_erase_iff).mp hsg
    show 0 < remsFor s rest
    rw [hcnt_ne s hm.1]
    exact hinv.needRem s hm.2 hst
  · rcases hinv.progress with hp | hp
    · exact Or.inl (by
        show 0 < rest.countP isProgressAct
        rw [hprog]; exact hp)
    · exact Or.inr hp

/-- Firing an `addCard` step appends the card to the grid and consumes
the (unique) pending add path for it. -/
theorem settleInv_addCard (env : SkillsEnv) (target : List String)
    (st : SkillsState) (hinv : SettleInv env target st)
    (t : Nat) (sp : String) {rest : List (Nat × TAction)}
    (hperm : st.pending.Perm ((t, TAction.addCard sp) :: rest))
    (hanim : st.isAnimating = true) :
    SettleInv env target
      { st with pending := rest, grid := st.grid ++ [sp] } := by
  have hcntc : ∀ s, st.pending.countP (isAddCardFor s) =
      (if (sp == s) = true then 1 else 0) + rest.countP (isAddCardFor s) := by
    intro s
    rw [countP_pop (isAddCardFor s) hperm]
    rfl
  have hcnta : ∀ s, addsFor s st.pending =
      (if (sp == s) = true then 1 else 0) + addsFor s rest := by
    intro s
    unfold addsFor
    rw [countP_pop (fun x => isAddCardFor s x || isPhase3For s x) hperm]
    have h1 : (isAddCardFor s (t, TAction.addCard sp) ||
        isPhase3For s (t, TAction.addCard sp)) = (sp == s) := by
      show ((sp == s) || false) = (sp == s)
      exact Bool.or_false _
    rw [h1]
  have hself : (sp == sp) = true := beq_self_eq_true sp
  have hposc : 0 < st.pending.countP (isAddCardFor sp) := by
    rw [hcntc sp, if_pos hself]
    omega
  have hsp := hinv.addCardSpec sp hposc
  have hcnta1 : addsFor sp st.pending = 1 + addsFor sp rest := by
    rw [hcnta sp, if_pos hself]
  have hrest0 : addsFor sp rest = 0 := by
    have h := hinv.addUniq sp
    rw [hcnta1] at h
    omega
  have hrestc0 : rest.countP (isAddCardFor sp) = 0 := by
    have h : rest.countP (isAddCardFor sp) ≤
        rest.countP (fun x => isAddCardFor sp x || isPhase3For sp x) :=
      List.countP_mono_left (fun x _ hx => by rw [hx]; rfl)
    have h2 : rest.countP (fun x => isAddCardFor sp x || isPhase3For sp x)
        = 0 := hrest0
    omega
  have hcnt_ne : ∀ s, s ≠ sp → addsFor s rest = addsFor s st.pending := by
    intro s hne
    have hbe : (sp == s) = false :=
      beq_eq_false_iff_ne.mpr (fun h => hne h.symm)
    rw [hcnta s, hbe, if_neg Bool.false_ne_true]
    omega
  have hcntc_ne : ∀ s, s ≠ sp → rest.countP (isAddCardFor s) =
      st.pending.countP (isAddCardFor s) := by
    intro s hne
    have hbe : (sp == s) = false :=
      beq_eq_false_iff_ne.mpr (fun h => hne h.symm)
    rw [hcntc s, hbe, if_neg Bool.false_ne_true]
    omega
  have hrem : ∀ s, remsFor s rest = remsFor s st.pending := by
    intro s
    unfold remsFor
    rw [countP_pop (isRemovalFor s) hperm]
    have h1 : isRemovalFor s (t, TAction.addCard sp) = false := rfl
    rw [h1, if_neg Bool.false_ne_true]
    omega
  have hprog : rest.countP isProgressAct =
      st.pending.countP isProgressAct := by
    rw [countP_pop isProgressAct hperm]
    have h1 : isProgressAct (t, TAction.addCard sp) = false := rfl
    rw [h1, if_neg Bool.false_ne_true]
    omega
  refine { cur := hinv.cur, gridNodup := ?_,
           targetNodup := hinv.targetNodup, anim := fun _ => hanim,
           remSpec := ?_, remUniq := ?_, addCardSpec := ?_, phase3Spec := ?_,
           addUniq := ?_, needAdd := ?_, needRem := ?_, progress := ?_ }
  · exact List.nodup_append.mpr ⟨hinv.gridNodup, List.nodup_singleton sp,
      fun a ha hb => hsp.2 (by
        rw [List.mem_singleton] at hb
        exact hb ▸ ha)⟩
  · intro s hpos'
    have hp2 : 0 < remsFor s rest := hpos'
    have hold := hinv.remSpec s (by rw [← hrem s]; exact hp2)
    exact ⟨List.mem_append_left _ hold.1, hold.2⟩
  · intro s
    show remsFor s rest ≤ 1
    rw [hrem s]; exact hinv.remUniq s
  · intro s hpos'
    have hp2 : 0 < rest.countP (isAddCardFor s) := hpos'
    by_cases hse : s = sp
    · subst hse
      rw [hrestc0] at hp2
      exact absurd hp2 (lt_irrefl 0)
    · have hold := hinv.addCardSpec s (by rw [← hcntc_ne s hse]; exact hp2)
      refine ⟨hold.1, fun hc => ?_⟩
      rcases List.mem_append.mp hc with hg | hg
      · exact hold.2 hg
      · exact hse (List.mem_singleton.mp hg)
  · intro t' l i hmem
    exact hinv.phase3Spec t' l i (hperm.mem_iff.mpr
      (List.mem_cons_of_mem _ hmem))
  · intro s
    show addsFor s rest ≤ 1
    by_cases hse : s = sp
    · subst hse; rw [hrest0]; omega
    · rw [hcnt_ne s hse]; exact hinv.addUniq s
  · intro s hst hsg
    show 0 < addsFor s rest
    have hse : s ≠ sp := by
      intro h
      exact hsg (by
        rw [h]
        exact List.mem_append_right _ (List.mem_singleton_self sp))
    have hsg2 : ¬ s ∈ st.grid := fun hc => hsg (List.mem_append_left _ hc)
    rw [hcnt_ne s hse]
    exact hinv.needAdd s hst hsg2
  · intro s hsg hst
    show 0 < remsFor s rest
    rcases List.mem_append.mp hsg with hg | hg
    · rw [hrem s]
      exact hinv.needRem s hg hst
    · exact absurd (show s ∈ target by
        rw [List.mem_singleton.mp hg]; exact hsp.1) hst
  · rcases hinv.progress with hp | hp
    · exact Or.inl (by
        show 0 < rest.countP isProgressAct
        rw [hprog]; exact hp)
    · exact Or.inr hp

/-- Counting entries of a staggered schedule built from a duplicate-free
list: a classifier recognising exactly the entries carrying skill `s`
counts one precisely when `s` is a member passing the build filter. -/
theorem countP_stagger (l : List String) (hnd : l.Nodup) (s : String)
    (Q : String → Bool) (g : Nat → Nat) (mk : String → TAction)
    (p : Nat × TAction → Bool)
    (hp : ∀ d y, p (g d, mk y) = (y == s)) :
    ((l.enum.filter (fun iv => Q iv.2)).map
      (fun iv => (g iv.1, mk iv.2))).countP p =
      if s ∈ l ∧ Q s = true then 1 else 0 := by
  simp only [List.countP_map, List.countP_filter, Function.comp]
  have hstep : (fun a : Nat × String => p (g a.1, mk a.2) && Q a.2) =
      fun a : Nat × String => (fun y => (y == s) && Q y) a.2 := by
    funext a
    rw [hp a.1 a.2]
  rw [hstep, countP_enum (fun y => (y == s) && Q y) l,
    countP_beq_nodup l hnd s Q]

/-- A staggered schedule contains no entry satisfying a classifier that
rejects every entry it builds. -/
theorem countP_stagger_zero (l : List String) (Q : Nat × String → Bool)
    (g : Nat → Nat) (mk : String → TAction) (p : Nat × TAction → Bool)
    (hp : ∀ d y, p (g d, mk y) = false) :
    ((l.enum.filter Q).map (fun iv => (g iv.1, mk iv.2))).countP p = 0 := by
  apply List.countP_eq_zero.mpr
  intro q hq hc
  rw [List.mem_map] at hq
  obtain ⟨iv, hmem, hiv⟩ := hq
  rw [← hiv] at hc
  have hc2 : p (g iv.1, mk iv.2) = true := hc
  rw [hp iv.1 iv.2] at hc2
  exact Bool.noConfusion hc2

/-- Shape of a staggered-schedule entry: it was built from some indexed
member of the source list that passed the filter. -/
theorem stagger_mem_shape (l : List String) (Q : Nat × String → Bool)
    (g : Nat → Nat) (mk : String → TAction) {q : Nat × TAction}
    (hq : q ∈ (l.enum.filter Q).map (fun iv => (g iv.1, mk iv.2))) :
    ∃ d y, q = (g d, mk y) ∧ y ∈ l ∧ Q (d, y) = true := by
  rw [List.mem_map] at hq
  obtain ⟨iv, hmem, hiv⟩ := hq
  rw [List.mem_filter] at hmem
  refine ⟨iv.1, iv.2, hiv.symm, ?_, ?_⟩
  · have h2 := List.mem_map_of_mem Prod.snd hmem.1
    rw [List.enum_map_snd] at h2
    exact h2
  · exact hmem.2

/-- Firing the `phase4` finisher publishes the progress display (count
and bar) for the current logical set and schedules the cosmetic
`countOff`; every add/removal count is unchanged. -/
theorem settleInv_phase4_step (env : SkillsEnv) (target : List String)
    (st : SkillsState) (hinv : SettleInv env target st)
    (t : Nat) {rest : List (Nat × TAction)}
    (hperm : st.pending.Perm ((t, TAction.phase4) :: rest))
    (hanim : st.isAnimating = true) :
    SettleInv env target
      { st with
        pending := rest ++ [(t + 500, TAction.countOff)],
        displayedCount := st.currentSkills.length,
        displayedBar := if 0 < st.allSkillsCount then
            ((st.currentSkills.length : ℚ) / (st.allSkillsCount : ℚ)) * 100
          else st.displayedBar } := by
  have hrem : ∀ s, remsFor s (rest ++ [(t + 500, TAction.countOff)]) =
      remsFor s st.pending := by
    intro s
    unfold remsFor
    rw [List.countP_append, countP_pop (isRemovalFor s) hperm,
      List.countP_cons, List.countP_nil]
    have h1 : isRemovalFor s (t, TAction.phase4) = false := rfl
    have h2 : isRemovalFor s (t + 500, TAction.countOff) = false := rfl
    rw [h1, h2, if_neg Bool.false_ne_true]
    omega
  have haddc : ∀ s, (rest ++ [(t + 500, TAction.countOff)]).countP
      (isAddCardFor s) = st.pending.countP (isAddCardFor s) := by
    intro s
    rw [List.countP_append, countP_pop (isAddCardFor s) hperm,
      List.countP_cons, List.countP_nil]
    have h1 : isAddCardFor s (t, TAction.phase4) = false := rfl
    have h2 : isAddCardFor s (t + 500, TAction.countOff) = false := rfl
    rw [h1, h2, if_neg Bool.false_ne_true]
    omega
  have hadds : ∀ s, addsFor s (rest ++ [(t + 500, TAction.countOff)]) =
      addsFor s st.pending := by
    intro s
    unfold addsFor
    rw [List.countP_append,
      countP_pop (fun x => isAddCardFor s x || isPhase3For s x) hperm,
      List.countP_cons, List.countP_nil]
    have h1 : (isAddCardFor s (t, TAction.phase4) ||
        isPhase3For s (t, TAction.phase4)) = false := rfl
    have h2 : (isAddCardFor s (t + 500, TAction.countOff) ||
        isPhase3For s (t + 500, TAction.countOff)) = false := rfl
    rw [h1, h2, if_neg Bool.false_ne_true]
    omega
  refine { cur := hinv.cur, gridNodup := hinv.gridNodup,
           targetNodup := hinv.targetNodup, anim := fun _ => hanim,
           remSpec := ?_, remUniq := ?_, addCardSpec := ?_, phase3Spec := ?_,
           addUniq := ?_, needAdd := ?_, needRem := ?_, progress := ?_ }
  · intro s hpos
    exact hinv.remSpec s (by rw [← hrem s]; exact hpos)
  · intro s
    show remsFor s (rest ++ [(t + 500, TAction.countOff)]) ≤ 1
    rw [hrem s]
    exact hinv.remUniq s
  · intro s hpos
    exact hinv.addCardSpec s (by rw [← haddc s]; exact hpos)
  · intro t' l i hmem
    rcases List.mem_append.mp hmem with hm | hm
    · exact hinv.phase3Spec t' l i (hperm.mem_iff.mpr
        (List.mem_cons_of_mem _ hm))
    · rw [List.mem_singleton] at hm
      exact TAction.noConfusion (congrArg Prod.snd hm)
  · intro s
    show addsFor s (rest ++ [(t + 500, TAction.countOff)]) ≤ 1
    rw [hadds s]
    exact hinv.addUniq s
  · intro s hst hsg
    show 0 < addsFor s (rest ++ [(t + 500, TAction.countOff)])
    rw [hadds s]
    exact hinv.needAdd s hst hsg
  · intro s hsg hst
    show 0 < remsFor s (rest ++ [(t + 500, TAction.countOff)])
    rw [hrem s]
    exact hinv.needRem s hsg hst
  · refine Or.inr ⟨?_, ?_⟩
    · show st.currentSkills.length = target.length
      rw [hinv.cur]
    · intro h
      have h2 : 0 < st.allSkillsCount := h
      show (if 0 < st.allSkillsCount then
          ((st.currentSkills.length : ℚ) / (st.allSkillsCount : ℚ)) * 100
        else st.displayedBar) =
          ((target.length : ℚ) / (st.allSkillsCount : ℚ)) * 100
      rw [if_pos h2, hinv.cur]

/-- Core of the phase-3 case: firing a live `phase3` gate replaces it by a
batch `A` of `addCard` steps — counted by an abstract per-skill counter
`c` — plus a `phase4` finisher. -/
theorem settleInv_phase3_aux (env : SkillsEnv) (target : List String)
    (st : SkillsState) (hinv : SettleInv env target st)
    (t : Nat) (toAdd : List String) (idx : Int) (tp : Nat)
    {rest A : List (Nat × TAction)} (c : String → Nat)
    (hperm : st.pending.Perm ((t, TAction.phase3 toAdd idx) :: rest))
    (hanim : st.isAnimating = true)
    (hAc : ∀ s, A.countP (isAddCardFor s) = c s)
    (hArem : ∀ s, A.countP (isRemovalFor s) = 0)
    (hAph3 : ∀ s, A.countP (isPhase3For s) = 0)
    (hAshape : ∀ t' l i, ¬ (t', TAction.phase3 l i) ∈ A)
    (hc_le : ∀ s, c s ≤ 1)
    (hc_pos : ∀ s, s ∈ toAdd → ¬ s ∈ st.grid → s ∈ env.skillsData →
      0 < c s)
    (hc_grid : ∀ s, 0 < c s → s ∈ toAdd ∧ ¬ s ∈ st.grid) :
    SettleInv env target
      { st with pending := (rest ++ A) ++ [(tp, TAction.phase4)] } := by
  have hmemp : (t, TAction.phase3 toAdd idx) ∈ st.pending :=
    hperm.mem_iff.mpr (List.mem_cons_self _ _)
  have hspec := hinv.phase3Spec t toAdd idx hmemp
  have hmemT := hspec.2
  have hremP : ∀ s, remsFor s ((rest ++ A) ++ [(tp, TAction.phase4)]) =
      remsFor s st.pending := by
    intro s
    unfold remsFor
    rw [List.countP_append, List.countP_append, hArem s,
      countP_pop (isRemovalFor s) hperm, List.countP_cons, List.countP_nil]
    have h1 : isRemovalFor s (t, TAction.phase3 toAdd idx) = false := rfl
    have h2 : isRemovalFor s (tp, TAction.phase4) = false := rfl
    rw [h1, h2, if_neg Bool.false_ne_true]
    omega
  have hcres : ∀ s, rest.countP (isAddCardFor s) =
      st.pending.countP (isAddCardFor s) := by
    intro s
    rw [countP_pop (isAddCardFor s) hperm]
    have h1 : isAddCardFor s (t, TAction.phase3 toAdd idx) = false := rfl
    rw [h1, if_neg Bool.false_ne_true]
    omega
  have hconv : ∀ s, ((rest ++ A) ++ [(tp, TAction.phase4)]).countP
      (isAddCardFor s) = rest.countP (isAddCardFor s) + c s := by
    intro s
    rw [List.countP_append, List.countP_append, hAc s, List.countP_cons,
      List.countP_nil]
    have h2 : isAddCardFor s (tp, TAction.phase4) = false := rfl
    rw [h2, if_neg Bool.false_ne_true]
    omega
  have hadspend : ∀ s, addsFor s st.pending =
      (if toAdd.contains s = true then 1 else 0) + addsFor s rest := by
    intro s
    unfold addsFor
    rw [countP_pop (fun x => isAddCardFor s x || isPhase3For s x) hperm]
    rfl
  have hadsnew : ∀ s, addsFor s ((rest ++ A) ++ [(tp, TAction.phase4)]) =
      addsFor s rest + c s := by
    intro s
    unfold addsFor
    rw [List.countP_append, List.countP_append, List.countP_cons,
      List.countP_nil]
    have hA2 : A.countP (fun x => isAddCardFor s x || isPhase3For s x) =
        A.countP (isAddCardFor s) := by
      apply List.countP_congr
      intro x hx
      have hphf : isPhase3For s x = false :=
        Bool.eq_false_iff.mpr (List.countP_eq_zero.mp (hAph3 s) x hx)
      rw [hphf, Bool.or_false]
    rw [hA2, hAc s]
    have h2 : (isAddCardFor s (tp, TAction.phase4) ||
        isPhase3For s (tp, TAction.phase4)) = false := rfl
    rw [h2, if_neg Bool.false_ne_true]
    omega
  have hprogpos : 0 < ((rest ++ A) ++ [(tp, TAction.phase4)]).countP
      isProgressAct := by
    rw [List.countP_pos]
    exact ⟨(tp, TAction.phase4), List.mem_append_right _
      (List.mem_singleton_self _), rfl⟩
  refine { cur := hinv.cur, gridNodup := hinv.gridNodup,
           targetNodup := hinv.targetNodup, anim := fun _ => hanim,
           remSpec := ?_, remUniq := ?_, addCardSpec := ?_, phase3Spec := ?_,
           addUniq := ?_, needAdd := ?_, needRem := ?_, progress := ?_ }
  · intro s hpos
    exact hinv.remSpec s (by rw [← hremP s]; exact hpos)
  · intro s
    show remsFor s ((rest ++ A) ++ [(tp, TAction.phase4)]) ≤ 1
    rw [hremP s]
    exact hinv.remUniq s
  · intro s hpos'
    have hp2 : 0 < rest.countP (isAddCardFor s) + c s := by
      rw [← hconv s]
      exact hpos'
    by_cases hcpos : 0 < c s
    · have hg := hc_grid s hcpos
      exact ⟨(hmemT s hg.1).1, hg.2⟩
    · have hp3 : 0 < st.pending.countP (isAddCardFor s) := by
        rw [← hcres s]
        omega
      exact hinv.addCardSpec s hp3
  · intro t' l i hmem
    rcases List.mem_append.mp hmem with hm | hm
    · rcases List.mem_append.mp hm with hr | hr
      · exact hinv.phase3Spec t' l i (hperm.mem_iff.mpr
          (List.mem_cons_of_mem _ hr))
      · exact absurd hr (hAshape t' l i)
    · rw [List.mem_singleton] at hm
      exact TAction.noConfusion (congrArg Prod.snd hm)
  · intro s
    show addsFor s ((rest ++ A) ++ [(tp, TAction.phase4)]) ≤ 1
    rw [hadsnew s]
    have h1 := hinv.addUniq s
    rw [hadspend s] at h1
    by_cases hmem : s ∈ toAdd
    · have hcont : toAdd.contains s = true := by simpa using hmem
      rw [hcont, if_pos rfl] at h1
      have hle := hc_le s
      omega
    · have hc0 : c s = 0 := by
        by_contra h
        exact hmem (hc_grid s (Nat.pos_of_ne_zero h)).1
      rw [hc0]
      omega
  · intro s hst hsg
    have hold := hinv.needAdd s hst hsg
    show 0 < addsFor s ((rest ++ A) ++ [(tp, TAction.phase4)])
    rw [hadsnew s]
    by_cases hrpos : 0 < addsFor s rest
    · omega
    · have hr0 : addsFor s rest = 0 := by omega
      rw [hadspend s, hr0] at hold
      have hcont : toAdd.contains s = true := by
        by_cases hc : toAdd.contains s = true
        · exact hc
        · rw [if_neg hc] at hold
          omega
      have hmem : s ∈ toAdd := by simpa using hcont
      have := hc_pos s hmem hsg (hmemT s hmem).2
      omega
  · intro s hsg hst
    show 0 < remsFor s ((rest ++ A) ++ [(tp, TAction.phase4)])
    rw [hremP s]
    exact hinv.needRem s hsg hst
  · exact Or.inl hprogpos

/-- Firing a live `phase3` gate schedules the staggered `addCard` steps
for the listed skills missing from the grid (and present in the skills
data) plus the `phase4` finisher, preserving the settle invariant. -/
theorem settleInv_phase3_step (env : SkillsEnv) (target : List String)
    (st : SkillsState) (hinv : SettleInv env target st)
    (t : Nat) (toAdd : List String) (idx : Int)
    {rest : List (Nat × TAction)}
    (hperm : st.pending.Perm ((t, TAction.phase3 toAdd idx) :: rest))
    (hanim : st.isAnimating = true) :
    SettleInv env target
      { st with pending :=
        (rest ++ ((toAdd.enum.filter (fun iv =>
            decide (¬ iv.2 ∈ st.grid) && decide (iv.2 ∈ env.skillsData))).map
          (fun iv => (t + iv.1 * 50, TAction.addCard iv.2)))) ++
        [(t + toAdd.length * 50 + 100, TAction.phase4)] } := by
  have hndA := (hinv.phase3Spec t toAdd idx
    (hperm.mem_iff.mpr (List.mem_cons_self _ _))).1
  apply settleInv_phase3_aux env target st hinv t toAdd idx
    (t + toAdd.length * 50 + 100)
    (fun s => if s ∈ toAdd ∧ (decide (¬ s ∈ st.grid) &&
      decide (s ∈ env.skillsData)) = true then 1 else 0)
    hperm hanim
  · intro s
    exact countP_stagger toAdd hndA s
      (fun y => decide (¬ y ∈ st.grid) && decide (y ∈ env.skillsData))
      (fun d => t + d * 50) TAction.addCard (isAddCardFor s)
      (fun d y => rfl)
  · intro s
    exact countP_stagger_zero toAdd
      (fun iv => decide (¬ iv.2 ∈ st.grid) && decide (iv.2 ∈ env.skillsData))
      (fun d => t + d * 50) TAction.addCard (isRemovalFor s)
      (fun d y => rfl)
  · intro s
    exact countP_stagger_zero toAdd
      (fun iv => decide (¬ iv.2 ∈ st.grid) && decide (iv.2 ∈ env.skillsData))
      (fun d => t + d * 50) TAction.addCard (isPhase3For s)
      (fun d y => rfl)
  · intro t' l i hmem
    obtain ⟨d, y, hqe, _, _⟩ := stagger_mem_shape toAdd
      (fun iv => decide (¬ iv.2 ∈ st.grid) && decide (iv.2 ∈ env.skillsData))
      (fun d => t + d * 50) TAction.addCard hmem
    exact TAction.noConfusion (congrArg Prod.snd hqe)
  · intro s
    show (if s ∈ toAdd ∧ (decide (¬ s ∈ st.grid) &&
      decide (s ∈ env.skillsData)) = true then 1 else 0) ≤ 1
    split <;> omega
  · intro s h1 h2 h3
    show 0 < (if s ∈ toAdd ∧ (decide (¬ s ∈ st.grid) &&
      decide (s ∈ env.skillsData)) = true then 1 else 0)
    rw [if_pos ⟨h1, by rw [decide_eq_true h2, decide_eq_true h3]; rfl⟩]
    omega
  · intro s hpos
    have hp2 : 0 < (if s ∈ toAdd ∧ (decide (¬ s ∈ st.grid) &&
        decide (s ∈ env.skillsData)) = true then 1 else 0) := hpos
    by_cases hc : s ∈ toAdd ∧ (decide (¬ s ∈ st.grid) &&
        decide (s ∈ env.skillsData)) = true
    · have hand := hc.2
      rw [Bool.and_eq_true] at hand
      exact ⟨hc.1, of_decide_eq_true hand.1⟩
    · rw [if_neg hc] at hp2
      exact absurd hp2 (lt_irrefl 0)

/-- The `queueTimeout` wrapper's drain check only lowers `isAnimating`,
which the invariant permits. -/
theorem settleInv_drainCheck (env : SkillsEnv) (target : List String)
    (st1 : SkillsState) (hinv : SettleInv env target st1) :
    SettleInv env target (if st1.pending.length = 0
      then { st1 with isAnimating := false } else st1) := by
  by_cases hlen : st1.pending.length = 0
  · rw [if_pos hlen]
    exact { cur := hinv.cur, gridNodup := hinv.gridNodup,
            targetNodup := hinv.targetNodup,
            anim := fun h => absurd (List.length_eq_zero.mp hlen) h,
            remSpec := hinv.remSpec, remUniq := hinv.remUniq,
            addCardSpec := hinv.addCardSpec, phase3Spec := hinv.phase3Spec,
            addUniq := hinv.addUniq, needAdd := hinv.needAdd,
            needRem := hinv.needRem, progress := hinv.progress }
  · rw [if_neg hlen]
    exact hinv

/-- Firing the earliest pending timer preserves the settle invariant:
case analysis over the ten callback kinds. -/
theorem settleInv_fireOne (env : SkillsEnv) (target : List String)
    (st : SkillsState) (hinv : SettleInv env target st) :
    SettleInv env target (fireOne env st) := by
  cases hpop : popEarliest st.pending with
  | none =>
    simp only [fireOne, hpop]
    exact hinv
  | some xr =>
    obtain ⟨⟨t, a⟩, rest⟩ := xr
    have hne : st.pending ≠ [] := by
      intro hc
      rw [hc] at hpop
      exact Option.noConfusion hpop
    have hanim := hinv.anim hne
    have hperm := popEarliest_perm hpop
    simp only [fireOne, hpop]
    apply settleInv_drainCheck
    cases a with
    | ctxOff =>
      have h := @settleInv_neutral env target st hinv (t, TAction.ctxOff)
        rest [] hperm hanim
        ⟨fun q => rfl, fun q => rfl, fun q => rfl, rfl⟩
        (fun q hq => absurd hq (List.not_mem_nil q))
      rw [List.append_nil] at h
      exact h
    | progressFill s =>
      have h := @settleInv_neutral env target st hinv
        (t, TAction.progressFill s) rest [] hperm hanim
        ⟨fun q => rfl, fun q => rfl, fun q => rfl, rfl⟩
        (fun q hq => absurd hq (List.not_mem_nil q))
      rw [List.append_nil] at h
      exact h
    | badgeFlashOff s =>
      have h := @settleInv_neutral env target st hinv
        (t, TAction.badgeFlashOff s) rest [] hperm hanim
        ⟨fun q => rfl, fun q => rfl, fun q => rfl, rfl⟩
        (fun q hq => absurd hq (List.not_mem_nil q))
      rw [List.append_nil] at h
      exact h
    | countOff =>
      have h := @settleInv_neutral env target st hinv (t, TAction.countOff)
        rest [] hperm hanim
        ⟨fun q => rfl, fun q => rfl, fun q => rfl, rfl⟩
        (fun q hq => absurd hq (List.not_mem_nil q))
      rw [List.append_nil] at h
      exact h
    | badgeFlash s =>
      exact @settleInv_neutral env target st hinv (t, TAction.badgeFlash s)
        rest [(t + 500, TAction.badgeFlashOff s)] hperm hanim
        ⟨fun q => rfl, fun q => rfl, fun q => rfl, rfl⟩
        (fun q hq => by
          rw [List.mem_singleton] at hq
          subst hq
          exact ⟨fun q => rfl, fun q => rfl, fun q => rfl, rfl⟩)
    | markRemoving s =>
      exact settleInv_markRemoving env target st hinv t s hperm hanim
    | removeCard s =>
      exact settleInv_removeCard env target st hinv t s hperm hanim
    | addCard s =>
      exact settleInv_addCard env target st hinv t s hperm hanim
    | phase3 toAdd idx =>
      have hred : applyAction env t (TAction.phase3 toAdd idx)
          { st with pending := rest } =
          (if st.isAnimating = false
           then ({ st with pending := rest } : SkillsState)
           else { st with pending :=
             (rest ++ ((toAdd.enum.filter (fun iv =>
                 decide (¬ iv.2 ∈ st.grid) &&
                 decide (iv.2 ∈ env.skillsData))).map
               (fun iv => (t + iv.1 * 50, TAction.addCard iv.2)))) ++
             [(t + toAdd.length * 50 + 100, TAction.phase4)] }) := rfl
      rw [hred, if_neg (by rw [hanim]; exact fun hc => Bool.noConfusion hc)]
      exact settleInv_phase3_step env target st hinv t toAdd idx hperm hanim
    | phase4 =>
      have hred : applyAction env t TAction.phase4
          { st with pending := rest } =
          (if (rest ++ [(t + 500, TAction.countOff)]).length + 1 = 1
           then { st with
               pending := rest ++ [(t + 500, TAction.countOff)],
               isAnimating := false,
               displayedCount := st.currentSkills.length,
               displayedBar := if 0 < st.allSkillsCount then
                   ((st.currentSkills.length : ℚ) /
                     (st.allSkillsCount : ℚ)) * 100
                 else st.displayedBar }
           else { st with
               pending := rest ++ [(t + 500, TAction.countOff)],
               displayedCount := st.currentSkills.length,
               displayedBar := if 0 < st.allSkillsCount then
                   ((st.currentSkills.length : ℚ) /
                     (st.allSkillsCount : ℚ)) * 100
                 else st.displayedBar }) := rfl
      rw [hred, if_neg (by
        rw [List.length_append, List.length_singleton]
        omega)]
      exact settleInv_phase4_step env target st hinv t hperm hanim

/-- With fuel at least the queue weight, `settleN` drains the queue. -/
theorem settleN_drains (env : SkillsEnv) :
    ∀ (n : Nat) (st : SkillsState), queueWeight st.pending ≤ n →
    (settleN env n st).pending = [] := by
  intro n
  induction n with
  | zero =>
    intro st h
    have hnil : st.pending = [] := by
      by_contra hne
      have := queueWeight_pos hne
      omega
    simp only [settleN]
    exact hnil
  | succ n ih =>
    intro st h
    simp only [settleN]
    cases hpop : popEarliest st.pending with
    | none => exact popEarliest_eq_none hpop
    | some xr =>
      apply ih
      have hne : st.pending ≠ [] := by
        intro hc
        rw [hc] at hpop
        exact Option.noConfusion hpop
      have := fireOne_weight env st hne
      omega

/-- `settleN` preserves the settle invariant. -/
theorem settleN_inv (env : SkillsEnv) (target : List String) :
    ∀ (n : Nat) (st : SkillsState), SettleInv env target st →
    SettleInv env target (settleN env n st) := by
  intro n
  induction n with
  | zero =>
    intro st h
    simp only [settleN]
    exact h
  | succ n ih =>
    intro st h
    simp only [settleN]
    cases hpop : popEarliest st.pending with
    | none => exact h
    | some xr => exact ih (fireOne env st) (settleInv_fireOne env target st h)

/-- At rest, the settle invariant forces the rendered grid to be exactly
the target set and the progress display to show it. -/
theorem settleInv_drained (env : SkillsEnv) (target : List String)
    (st : SkillsState) (hinv : SettleInv env target st)
    (hpend : st.pending = []) :
    (∀ s, s ∈ st.grid ↔ s ∈ target) ∧
    st.displayedCount = target.length ∧
    (0 < st.allSkillsCount →
      st.displayedBar =
        ((target.length : ℚ) / (st.allSkillsCount : ℚ)) * 100) := by
  have hzero : ∀ p : Nat × TAction → Bool, st.pending.countP p = 0 := by
    intro p
    rw [hpend]
    rfl
  refine ⟨?_, ?_⟩
  · intro s
    constructor
    · intro hg
      by_contra hnt
      have h := hinv.needRem s hg hnt
      have h0 : remsFor s st.pending = 0 := hzero _
      rw [h0] at h
      exact absurd h (Nat.lt_irrefl 0)
    · intro ht
      by_contra hng
      have h := hinv.needAdd s ht hng
      have h0 : addsFor s st.pending = 0 := hzero _
      rw [h0] at h
      exact absurd h (Nat.lt_irrefl 0)
  · rcases hinv.progress with hp | hp
    · rw [hzero isProgressAct] at hp
      exact absurd hp (Nat.lt_irrefl 0)
    · exact hp

/-- The synchronous body of `animateSkillsChange`, run from an idle
consistent state (empty queue, duplicate-free grid mirroring
`currentSkills`), establishes the settle invariant for the new set:
the queue it builds holds exactly one removal chain per departing card,
cosmetic refreshes, and one phase-3 gate carrying every arriving skill. -/
theorem settleInv_start (env : SkillsEnv) (newSkills cs gr : List String)
    (idx : Int) (dc : Nat) (db : ℚ) (ac : Nat)
    (hnd : newSkills.Nodup) (hcnd : cs.Nodup) (hgnd : gr.Nodup)
    (hiff : ∀ s, s ∈ gr ↔ s ∈ cs)
    (hsub : ∀ s ∈ newSkills, s ∈ env.skillsData) :
    SettleInv env newSkills
      { currentSkills := newSkills, grid := gr,
        pending :=
          (([((500 : Nat), TAction.ctxOff)] ++
            (((cs.filter (fun q => decide (¬ q ∈ newSkills))).enum.filter
                (fun iv => decide (iv.2 ∈ gr))).map
              (fun iv => (iv.1 * 30, TAction.markRemoving iv.2)))) ++
            (if 0 < (cs.filter (fun q => decide (q ∈ newSkills))).length ∧
                0 ≤ idx then
              ((cs.filter (fun q => decide (q ∈ newSkills))).filter
                  (fun q => decide (q ∈ gr))).bind
                (fun q => [((100 : Nat), TAction.progressFill q),
                           ((150 : Nat), TAction.badgeFlash q)])
            else [])) ++
          [((cs.filter (fun q => decide (¬ q ∈ newSkills))).length * 30 + 100,
            TAction.phase3 (newSkills.filter (fun q => decide (¬ q ∈ cs)))
              idx)],
        isAnimating := true, displayedCount := dc, displayedBar := db,
        allSkillsCount := ac } := by
  set toRem := cs.filter (fun q => decide (¬ q ∈ newSkills)) with htoRem
  set toAdd := newSkills.filter (fun q => decide (¬ q ∈ cs)) with htoAdd
  set toUpd := cs.filter (fun q => decide (q ∈ newSkills)) with htoUpd
  set removals := ((toRem.enum.filter (fun iv => decide (iv.2 ∈ gr))).map
    (fun iv => (iv.1 * 30, TAction.markRemoving iv.2))) with hremovals
  set updates := (if 0 < toUpd.length ∧ 0 ≤ idx then
      (toUpd.filter (fun q => decide (q ∈ gr))).bind
        (fun q => [((100 : Nat), TAction.progressFill q),
                   ((150 : Nat), TAction.badgeFlash q)])
    else []) with hupdates
  set P := (([((500 : Nat), TAction.ctxOff)] ++ removals) ++ updates) ++
    [(toRem.length * 30 + 100, TAction.phase3 toAdd idx)] with hP
  have hndRem : toRem.Nodup := by
    rw [htoRem]
    exact hcnd.filter _
  have hUpdShape : ∀ q : Nat × TAction, q ∈ updates →
      (∃ y, q = ((100 : Nat), TAction.progressFill y) ∨
        q = ((150 : Nat), TAction.badgeFlash y)) := by
    intro q hq
    rw [hupdates] at hq
    by_cases hc : 0 < toUpd.length ∧ 0 ≤ idx
    · rw [if_pos hc] at hq
      have hq2 : q ∈ (toUpd.filter (fun r => decide (r ∈ gr))).flatMap
          (fun r => [((100 : Nat), TAction.progressFill r),
                     ((150 : Nat), TAction.badgeFlash r)]) := hq
      rw [List.mem_flatMap] at hq2
      obtain ⟨y, hy, hmem2⟩ := hq2
      rcases List.mem_cons.mp hmem2 with he | he
      · exact ⟨y, Or.inl he⟩
      · rw [List.mem_singleton] at he
        exact ⟨y, Or.inr he⟩
    · rw [if_neg hc] at hq
      exact absurd hq (List.not_mem_nil q)
  have hUpd0 : ∀ p : Nat × TAction → Bool,
      (∀ y, p ((100 : Nat), TAction.progressFill y) = false) →
      (∀ y, p ((150 : Nat), TAction.badgeFlash y) = false) →
      updates.countP p = 0 := by
    intro p h1 h2
    apply List.countP_eq_zero.mpr
    intro q hq hcq
    obtain ⟨y, he | he⟩ := hUpdShape q hq
    · rw [he, h1 y] at hcq
      exact Bool.noConfusion hcq
    · rw [he, h2 y] at hcq
      exact Bool.noConfusion hcq
  have hremEq : ∀ s, remsFor s P =
      (if s ∈ toRem ∧ decide (s ∈ gr) = true then 1 else 0) := by
    intro s
    unfold remsFor
    rw [hP, List.countP_append, List.countP_append, List.countP_append]
    have h1 : [((500 : Nat), TAction.ctxOff)].countP (isRemovalFor s) = 0 :=
      rfl
    have h2 : removals.countP (isRemovalFor s) =
        (if s ∈ toRem ∧ decide (s ∈ gr) = true then 1 else 0) := by
      rw [hremovals]
      exact countP_stagger toRem hndRem s (fun y => decide (y ∈ gr))
        (fun d => d * 30) TAction.markRemoving (isRemovalFor s)
        (fun d y => rfl)
    have h3 := hUpd0 (isRemovalFor s) (fun y => rfl) (fun y => rfl)
    have h4 : [(toRem.length * 30 + 100, TAction.phase3 toAdd idx)].countP
        (isRemovalFor s) = 0 := rfl
    rw [h1, h2, h3, h4]
    omega
  have haddcEq : ∀ s, P.countP (isAddCardFor s) = 0 := by
    intro s
    rw [hP, List.countP_append, List.countP_append, List.countP_append]
    have h1 : [((500 : Nat), TAction.ctxOff)].countP (isAddCardFor s) = 0 :=
      rfl
    have h2 : removals.countP (isAddCardFor s) = 0 := by
      rw [hremovals]
      exact countP_stagger_zero toRem (fun iv => decide (iv.2 ∈ gr))
        (fun d => d * 30) TAction.markRemoving (isAddCardFor s)
        (fun d y => rfl)
    have h3 := hUpd0 (isAddCardFor s) (fun y => rfl) (fun y => rfl)
    have h4 : [(toRem.length * 30 + 100, TAction.phase3 toAdd idx)].countP
        (isAddCardFor s) = 0 := rfl
    rw [h1, h2, h3, h4]
  have haddsEq : ∀ s, addsFor s P =
      (if toAdd.contains s = true then 1 else 0) := by
    intro s
    unfold addsFor
    rw [hP, List.countP_append, List.countP_append, List.countP_append]
    have h1 : [((500 : Nat), TAction.ctxOff)].countP
        (fun x => isAddCardFor s x || isPhase3For s x) = 0 := rfl
    have h2 : removals.countP
        (fun x => isAddCardFor s x || isPhase3For s x) = 0 := by
      rw [hremovals]
      exact countP_stagger_zero toRem (fun iv => decide (iv.2 ∈ gr))
        (fun d => d * 30) TAction.markRemoving
        (fun x => isAddCardFor s x || isPhase3For s x) (fun d y => rfl)
    have h3 := hUpd0 (fun x => isAddCardFor s x || isPhase3For s x)
      (fun y => rfl) (fun y => rfl)
    have h4 : [(toRem.length * 30 + 100, TAction.phase3 toAdd idx)].countP
        (fun x => isAddCardFor s x || isPhase3For s x) =
        (if toAdd.contains s = true then 1 else 0) := by
      rw [List.countP_cons, List.countP_nil]
      show 0 + (if toAdd.contains s = true then 1 else 0) = _
      omega
    rw [h1, h2, h3, h4]
    omega
  have fremSpec : ∀ s, 0 < remsFor s P → s ∈ gr ∧ ¬ s ∈ newSkills := by
    intro s hpos
    rw [hremEq s] at hpos
    have hcond : s ∈ toRem ∧ decide (s ∈ gr) = true := by
      by_contra hc
      rw [if_neg hc] at hpos
      exact absurd hpos (Nat.lt_irrefl 0)
    have hm : s ∈ cs ∧ decide (¬ s ∈ newSkills) = true := by
      rw [htoRem] at hcond
      exact List.mem_filter.mp hcond.1
    exact ⟨of_decide_eq_true hcond.2, of_decide_eq_true hm.2⟩
  have fremUniq : ∀ s, remsFor s P ≤ 1 := by
    intro s
    rw [hremEq s]
    split <;> omega
  have faddc : ∀ s, 0 < P.countP (isAddCardFor s) →
      s ∈ newSkills ∧ ¬ s ∈ gr := by
    intro s hpos
    rw [haddcEq s] at hpos
    exact absurd hpos (Nat.lt_irrefl 0)
  have fph3 : ∀ t' l i, (t', TAction.phase3 l i) ∈ P →
      l.Nodup ∧ ∀ s ∈ l, s ∈ newSkills ∧ s ∈ env.skillsData := by
    intro t' l i hmem
    rw [hP] at hmem
    rcases List.mem_append.mp hmem with hm | hm
    · rcases List.mem_append.mp hm with hm2 | hm2
      · rcases List.mem_append.mp hm2 with hm3 | hm3
        · rw [List.mem_singleton] at hm3
          exact TAction.noConfusion (congrArg Prod.snd hm3)
        · have hm4 : ((t', TAction.phase3 l i) : Nat × TAction) ∈
              (toRem.enum.filter (fun iv => decide (iv.2 ∈ gr))).map
                (fun iv => (iv.1 * 30, TAction.markRemoving iv.2)) := by
            rw [← hremovals]
            exact hm3
          obtain ⟨d, y, hqe, _, _⟩ := stagger_mem_shape toRem
            (fun iv => decide (iv.2 ∈ gr)) (fun d => d * 30)
            TAction.markRemoving hm4
          exact TAction.noConfusion (congrArg Prod.snd hqe)
      · obtain ⟨y, he | he⟩ := hUpdShape _ hm2
        · exact TAction.noConfusion (congrArg Prod.snd he)
        · exact TAction.noConfusion (congrArg Prod.snd he)
    · rw [List.mem_singleton] at hm
      have hsnd : TAction.phase3 l i = TAction.phase3 toAdd idx :=
        congrArg Prod.snd hm
      injection hsnd with h1 h2
      subst h1
      constructor
      · rw [htoAdd]
        exact hnd.filter _
      · intro s hs
        have hm2 : s ∈ newSkills ∧ decide (¬ s ∈ cs) = true := by
          rw [htoAdd] at hs
          exact List.mem_filter.mp hs
        exact ⟨hm2.1, hsub s hm2.1⟩
  have faddUniq : ∀ s, addsFor s P ≤ 1 := by
    intro s
    rw [haddsEq s]
    split <;> omega
  have fneedAdd : ∀ s, s ∈ newSkills → ¬ s ∈ gr → 0 < addsFor s P := by
    intro s hst hsg
    have hmem : s ∈ toAdd := by
      rw [htoAdd]
      exact List.mem_filter.mpr
        ⟨hst, decide_eq_true (fun hc => hsg ((hiff s).mpr hc))⟩
    have hcont : toAdd.contains s = true := by simpa using hmem
    rw [haddsEq s, if_pos hcont]
    omega
  have fneedRem : ∀ s, s ∈ gr → ¬ s ∈ newSkills → 0 < remsFor s P := by
    intro s hsg hst
    have hcond : s ∈ toRem ∧ decide (s ∈ gr) = true := by
      constructor
      · rw [htoRem]
        exact List.mem_filter.mpr ⟨(hiff s).mp hsg, decide_eq_true hst⟩
      · exact decide_eq_true hsg
    rw [hremEq s, if_pos hcond]
    omega
  have fprog : 0 < P.countP isProgressAct := by
    rw [hP, List.countP_pos]
    exact ⟨(toRem.length * 30 + 100, TAction.phase3 toAdd idx),
      List.mem_append_right _ (List.mem_singleton_self _), rfl⟩
  exact { cur := rfl, gridNodup := hgnd, targetNodup := hnd,
          anim := fun h => rfl,
          remSpec := fremSpec, remUniq := fremUniq, addCardSpec := faddc,
          phase3Spec := fph3, addUniq := faddUniq, needAdd := fneedAdd,
          needRem := fneedRem, progress := Or.inl fprog }

/-- `animateSkillsChange` from a consistent idle state establishes the
settle invariant for the new skill set. -/
theorem animate_establishes (env : SkillsEnv) (st : SkillsState)
    (newSkills : List String) (idx : Int)
    (hp0 : st.pending = []) (hcnd : st.currentSkills.Nodup)
    (hgnd : st.grid.Nodup)
    (hiff : ∀ s, s ∈ st.grid ↔ s ∈ st.currentSkills)
    (hnd : newSkills.Nodup)
    (hsub : ∀ s ∈ newSkills, s ∈ env.skillsData) :
    SettleInv env newSkills (animateSkillsChange env st newSkills idx) := by
  obtain ⟨cs, gr, pd, ia, dc, db, ac⟩ := st
  have hp0' : pd = [] := hp0
  subst hp0'
  have hcnd' : cs.Nodup := hcnd
  have hgnd' : gr.Nodup := hgnd
  have hiff' : ∀ s, s ∈ gr ↔ s ∈ cs := hiff
  exact settleInv_start env newSkills cs gr idx dc db ac hnd hcnd' hgnd'
    hiff' hsub

/-- Reduction of `handleTimelineChange` on a well-formed positive-index
payload: cancel any in-flight animation, then animate to the event's
cumulative skill set. -/
theorem handleTimelineChange_pos (env : SkillsEnv) (st : SkillsState)
    (payload : SyncPayload) (ev : TimelineEvent)
    (hidx : 0 ≤ payload.index) (hev : payload.eventData = some ev) :
    handleTimelineChange env st payload =
      animateSkillsChange env
        (if st.isAnimating = true then clearAnimationQueue st else st)
        ev.skills_cumulative payload.index := by
  have hne : ¬ payload.index = -1 := by omega
  simp only [handleTimelineChange]
  rw [if_neg hne, if_pos (show 0 ≤ payload.index ∧
      payload.eventData.isSome = true by rw [hev]; exact ⟨hidx, rfl⟩)]
  simp only [updateSkills]
  rw [if_neg hne, hev]
  rfl

/-- First event of the two-event fixture: cumulative skills `["a"]`. -/
def eventC2a : TimelineEvent :=
  { title := "e1", skills_cumulative := ["a"] }

/-- Second event of the two-event fixture: cumulative skills
`["a", "b"]`. -/
def eventC2b : TimelineEvent :=
  { title := "e2", skills_cumulative := ["a", "b"] }

/-- Skills-widget environment for the two-event fixture; both skills have
entries in the content document's skills map. -/
def envC2 : SkillsEnv :=
  { timelineData := [eventC2a, eventC2b], skillsData := ["a", "b"] }

/-- Synchronization payload for navigating to the first event. -/
def payloadC2a : SyncPayload :=
  { index := 0, total := 2, eventData := some eventC2a, displayIndex := 1 }

/-- Synchronization payload for navigating to the second event. -/
def payloadC2b : SyncPayload :=
  { index := 1, total := 2, eventData := some eventC2b, displayIndex := 2 }

/-- C2: the convergence invariant holds for a single navigation — from
any idle consistent state (empty timer queue, duplicate-free grid equal
as a set to `currentSkills`), one synchronization event followed by
settling of all animation timers leaves the grid equal as a set to the
event's `skills_cumulative`, `currentSkills` equal to it, and the queue
empty. (The claim's rapid-navigation clause is refuted separately: a
second navigation arriving before the timers fire cancels the pending
adds while `currentSkills` already holds the first target, so the diff
for the second target skips a card that is not in the grid.) -/
theorem skills_settled_convergence (env : SkillsEnv) (st : SkillsState)
    (payload : SyncPayload) (ev : TimelineEvent)
    (hp0 : st.pending = []) (hcnd : st.currentSkills.Nodup)
    (hgnd : st.grid.Nodup)
    (hiff : ∀ s, s ∈ st.grid ↔ s ∈ st.currentSkills)
    (hidx : 0 ≤ payload.index) (hev : payload.eventData = some ev)
    (hnd : ev.skills_cumulative.Nodup)
    (hsub : ∀ s ∈ ev.skills_cumulative, s ∈ env.skillsData) :
    (∀ s, s ∈ (settle env (handleTimelineChange env st payload)).grid ↔
        s ∈ ev.skills_cumulative) ∧
    (settle env (handleTimelineChange env st payload)).currentSkills =
      ev.skills_cumulative ∧
    (settle env (handleTimelineChange env st payload)).pending = [] := by
  rw [handleTimelineChange_pos env st payload ev hidx hev]
  have hprops : (if st.isAnimating = true then clearAnimationQueue st
      else st).pending = [] ∧
      (if st.isAnimating = true then clearAnimationQueue st
        else st).currentSkills = st.currentSkills ∧
      (if st.isAnimating = true then clearAnimationQueue st
        else st).grid = st.grid := by
    by_cases ha : st.isAnimating = true
    · rw [if_pos ha]
      exact ⟨rfl, rfl, rfl⟩
    · rw [if_neg ha]
      exact ⟨hp0, rfl, rfl⟩
  have hinv := animate_establishes env
    (if st.isAnimating = true then clearAnimationQueue st else st)
    ev.skills_cumulative payload.index hprops.1
    (by rw [hprops.2.1]; exact hcnd)
    (by rw [hprops.2.2]; exact hgnd)
    (fun s => by rw [hprops.2.2, hprops.2.1]; exact hiff s)
    hnd hsub
  have hinvFin : SettleInv env ev.skills_cumulative
      (settle env (animateSkillsChange env (if st.isAnimating = true
        then clearAnimationQueue st else st) ev.skills_cumulative
        payload.index)) :=
    settleN_inv env ev.skills_cumulative _ _ hinv
  have hdrain : (settle env (animateSkillsChange env (if st.isAnimating =
      true then clearAnimationQueue st else st) ev.skills_cumulative
      payload.index)).pending = [] :=
    settleN_drains env _ _ (le_refl _)
  have hext := settleInv_drained env ev.skills_cumulative _ hinvFin hdrain
  exact ⟨hext.1, hinvFin.cur, hdrain⟩

/-- Closed instance of the single-navigation convergence theorem on the
two-event fixture, starting from the freshly initialized widget. -/
theorem skills_settled_convergence_witness :
    (∀ s, s ∈ (settle envC2 (handleTimelineChange envC2
        (initialSkillsState envC2) payloadC2a)).grid ↔
      s ∈ eventC2a.skills_cumulative) ∧
    (settle envC2 (handleTimelineChange envC2 (initialSkillsState envC2)
      payloadC2a)).currentSkills = eventC2a.skills_cumulative ∧
    (settle envC2 (handleTimelineChange envC2 (initialSkillsState envC2)
      payloadC2a)).pending = [] :=
  skills_settled_convergence envC2 (initialSkillsState envC2) payloadC2a
    eventC2a rfl (by decide) (by decide) (fun s => Iff.rfl) (by decide) rfl
    (by decide) (by decide)

/-- C2: counterexample to the rapid-navigation clause. Navigating to the
first event and then immediately (before any timer fires) to the second,
then letting every timer fire, leaves `"a"` in `currentSkills` but not in
the rendered grid: the first navigation's pending `addCard "a"` was
cancelled, and the second navigation's diff, computed against
`currentSkills` (which already contains `"a"`), never re-adds it. -/
theorem skills_rapid_nav_loses_card :
    "a" ∈ (settle envC2 (handleTimelineChange envC2
        (handleTimelineChange envC2 (initialSkillsState envC2) payloadC2a)
        payloadC2b)).currentSkills ∧
    ¬ "a" ∈ (settle envC2 (handleTimelineChange envC2
        (handleTimelineChange envC2 (initialSkillsState envC2) payloadC2a)
        payloadC2b)).grid ∧
    (settle envC2 (handleTimelineChange envC2
        (handleTimelineChange envC2 (initialSkillsState envC2) payloadC2a)
        payloadC2b)).pending = [] := by decide

/-- C4: on a well-formed synchronization event the widget rewrites
`currentSkills` to the event's cumulative set synchronously, but the
progress display (`displayedCount`, `displayedBar` — the outputs of
`updateProgressBar`) is left untouched by the synchronous part: it is
only refreshed when the phase-4 timer fires, i.e. it is deferred behind
the remove/add animation delays, contrary to the claim. -/
theorem skills_current_immediate (env : SkillsEnv) (st : SkillsState)
    (payload : SyncPayload) (ev : TimelineEvent)
    (hidx : 0 ≤ payload.index) (hev : payload.eventData = some ev) :
    (handleTimelineChange env st payload).currentSkills =
      ev.skills_cumulative ∧
    (handleTimelineChange env st payload).displayedCount =
      st.displayedCount ∧
    (handleTimelineChange env st payload).displayedBar =
      st.displayedBar := by
  rw [handleTimelineChange_pos env st payload ev hidx hev]
  by_cases ha : st.isAnimating = true
  · rw [if_pos ha]
    exact ⟨rfl, rfl, rfl⟩
  · rw [if_neg ha]
    exact ⟨rfl, rfl, rfl⟩

/-- Closed instance of the immediate-logical-update theorem on the
two-event fixture. -/
theorem skills_current_immediate_witness :
    (handleTimelineChange envC2 (initialSkillsState envC2)
      payloadC2a).currentSkills = eventC2a.skills_cumulative ∧
    (handleTimelineChange envC2 (initialSkillsState envC2)
      payloadC2a).displayedCount =
      (initialSkillsState envC2).displayedCount ∧
    (handleTimelineChange envC2 (initialSkillsState envC2)
      payloadC2a).displayedBar =
      (initialSkillsState envC2).displayedBar :=
  skills_current_immediate envC2 (initialSkillsState envC2) payloadC2a
    eventC2a (by decide) rfl

/-- C4: counterexample to synchronous progress display. Right after the
synchronization event for the first fixture event, `currentSkills` is
already `["a"]` but the displayed count still shows `0`; only once the
animation timers (phase 3 then phase 4) have fired does it show `1`. -/
theorem skills_progress_deferred :
    (handleTimelineChange envC2 (initialSkillsState envC2)
      payloadC2a).currentSkills = ["a"] ∧
    (handleTimelineChange envC2 (initialSkillsState envC2)
      payloadC2a).displayedCount = 0 ∧
    (settle envC2 (handleTimelineChange envC2 (initialSkillsState envC2)
      payloadC2a)).displayedCount = 1 := by decide

end Portfolio